import Mathlib

/-
Shallow embedding of the shared-memory typed key-value engine implemented in
src/packages/shmproxy-lazy/ios/ShmProxyLazy/shm_kv_c_api.cpp.

Modelling conventions:
  * byte arrays (keys, values, payload arena) are `List Nat` / `Nat → Nat`;
  * machine integers are `Nat` (or `Int` for int64 values) with explicit
    `% 2 ^ 32` / `% 2 ^ 64` where the C code truncates;
  * the writer mutex serializes all writers, so the sequential model executes
    one operation at a time; a CAS issued under the writer lock succeeds on
    its first iteration (readers never write, and the model is the crash-free
    sequential semantics the spec quantifies over);
  * lock-free readers are additionally parameterized by the two generation
    values their two atomic loads observe (`g1`, `g2`), which lets concurrent
    interference on the generation counter be expressed.
-/

namespace ShmKV

/-- Error codes of `shm_error_t` (numeric values 0..7 in the C header). -/
inductive ShmError where
  | OK
  | NOT_FOUND
  | NO_SPACE
  | CONCURRENT_MOD
  | INVALID_PARAM
  | OPEN_FAILED
  | PERMISSION_DENIED
  | TYPE_MISMATCH
deriving DecidableEq, Repr

/-- Sentinel `EMPTY_INDEX = 0xFFFFFFFF` for empty buckets / chain tails. -/
def EMPTY_INDEX : Nat := 4294967295

/-- Constant `MAX_VAL_LEN = 1 << 28` bounding any single payload allocation. -/
def MAX_VAL_LEN : Nat := 2 ^ 28

/-- Value-type tag `SHM_TYPE_UNKNOWN = 0`. -/
def SHM_TYPE_UNKNOWN : Nat := 0

/-- Value-type tag `SHM_TYPE_INT_SCALAR = 1`. -/
def SHM_TYPE_INT_SCALAR : Nat := 1

/-- Value-type tag `SHM_TYPE_INT_SET = 8`. -/
def SHM_TYPE_INT_SET : Nat := 8

/-- Value-type tag `SHM_TYPE_DICT_STR_INT = 11`. -/
def SHM_TYPE_DICT_STR_INT : Nat := 11

/-- Value-type tag `SHM_TYPE_OBJECT = 18`. -/
def SHM_TYPE_OBJECT : Nat := 18

/-- Truncation to a 32-bit unsigned value, the C `(uint32_t)` cast. -/
def u32 (n : Nat) : Nat := n % 2 ^ 32

/-- The helper `align_up(x, a) = (x + a - 1) & ~(a - 1)`; for the power-of-two
alignments used by the code this equals rounding up to a multiple of `a`. -/
def align_up (x a : Nat) : Nat := (x + a - 1) / a * a

/-- One step of the 64-bit FNV-1a loop in `simple_hash`:
`h ^= data[i]; h *= 1099511628211` with 64-bit wraparound. -/
def fnvStep (h b : Nat) : Nat := ((h ^^^ b) * 1099511628211) % 2 ^ 64

/-- The hash function `simple_hash` (64-bit FNV-1a, seed `1469598103934665603`
as written in the source). -/
def simple_hash (data : List Nat) : Nat := data.foldl fnvStep 1469598103934665603

/-- Little-endian bytes of a 32-bit value (`u32` fields of the payload
layouts; the target platforms are little-endian). -/
def u32ToBytes (n : Nat) : List Nat :=
  [n % 256, n / 256 % 256, n / 256 ^ 2 % 256, n / 256 ^ 3 % 256]

/-- Read a 32-bit value from four little-endian bytes. -/
def u32FromBytes (bs : List Nat) : Nat :=
  bs.getD 0 0 + 256 * bs.getD 1 0 + 256 ^ 2 * bs.getD 2 0 + 256 ^ 3 * bs.getD 3 0

/-- Little-endian bytes of an `int64_t` (two's complement, 8 bytes). -/
def i64ToBytes (v : Int) : List Nat :=
  let m := (v % (2 ^ 64 : Int)).toNat
  (List.range 8).map (fun i => m / 256 ^ i % 256)

/-- Read an `int64_t` from 8 little-endian bytes (two's complement). -/
def i64FromBytes (bs : List Nat) : Int :=
  let m : Nat := (List.range 8).foldr (fun i acc => bs.getD i 0 % 256 * 256 ^ i + acc) 0
  if m < 2 ^ 63 then (m : Int) else (m : Int) - 2 ^ 64

/-- A record of the node area (`struct Node`): key/value offsets and lengths
into the payload area, chain link, flags (bit 0 = active), version and the
value-type tag. -/
structure Node where
  key_off : Nat
  key_len : Nat
  val_off : Nat
  val_len : Nat
  next_index : Nat
  flags : Nat
  version : Nat
  value_type : Nat
deriving DecidableEq, Repr

/-- The all-zero node record (the node area is zero-initialized on create). -/
def Node.zero : Node := ⟨0, 0, 0, 0, 0, 0, 0, 0⟩

/-- The header fields the engine operations touch (`struct Header`).
`payload_capacity` stands for `total_size - payload_area_off`, the quantity
`alloc_payload` checks against. -/
structure Header where
  n_buckets : Nat
  n_nodes : Nat
  payload_capacity : Nat
  next_free_node_index : Nat
  payload_alloc_off : Nat
  generation : Nat
deriving Repr

/-- A mapped segment (`struct SharedShm` plus the three areas): bucket array,
node array and payload byte arena, each modelled as a total function from
index to content. -/
structure Seg where
  hdr : Header
  buckets : Nat → Nat
  nodes : Nat → Node
  payload : Nat → Nat

/-- Write the byte list `bs` into memory at offset `off` (a `memcpy`). -/
def writeBytes (mem : Nat → Nat) (off : Nat) (bs : List Nat) : Nat → Nat :=
  fun a => if off ≤ a ∧ a < off + bs.length then bs.getD (a - off) 0 else mem a

/-- Read `len` bytes of memory starting at offset `off`. -/
def readBytes (mem : Nat → Nat) (off len : Nat) : List Nat :=
  (List.range len).map (fun i => mem (off + i))

/-- The slice `bs[a .. a+n)` of a byte list, padded with 0 past the end. -/
def sliceD (bs : List Nat) (a n : Nat) : List Nat :=
  (List.range n).map (fun i => bs.getD (a + i) 0)

/-- Fresh segment as initialized by `shm_create` for a new object: zeroed
mapping, every bucket set to `EMPTY_INDEX`, cursors and generation zero. -/
def initSeg (nB nN cap : Nat) : Seg :=
  { hdr := { n_buckets := nB, n_nodes := nN, payload_capacity := cap,
             next_free_node_index := 0, payload_alloc_off := 0, generation := 0 },
    buckets := fun b => if b < nB then EMPTY_INDEX else 0,
    nodes := fun _ => Node.zero,
    payload := fun _ => 0 }

/-- Bump the generation counter (`__atomic_fetch_add(&hdr->generation, 1)`). -/
def bumpGen (s : Seg) : Seg :=
  { s with hdr := { s.hdr with generation := s.hdr.generation + 1 } }

/-- Store `v` into bucket `b` (the head CAS that publishes a node). -/
def setBucket (s : Seg) (b v : Nat) : Seg :=
  { s with buckets := fun i => if i = b then v else s.buckets i }

/-- Store node record `n` at node index `i` (`nodes[node_idx] = tmp`). -/
def setNode (s : Seg) (i : Nat) (n : Node) : Seg :=
  { s with nodes := fun j => if j = i then n else s.nodes j }

/-- Write bytes into the payload arena at byte offset `off`. -/
def writePayload (s : Seg) (off : Nat) (bs : List Nat) : Seg :=
  { s with payload := writeBytes s.payload off bs }

/-- Bucket selection `(uint32_t)(simple_hash(key) % n_buckets)`. -/
def bucketOf (s : Seg) (key : List Nat) : Nat :=
  u32 (simple_hash key % s.hdr.n_buckets)

/-- The allocator `alloc_node_index`: an unconditional atomic fetch-add on
`next_free_node_index`, failing (after the increment) when the pre-increment
value is at least `n_nodes`. -/
def alloc_node_index (s : Seg) : Option Nat × Seg :=
  let idx := s.hdr.next_free_node_index
  let s' := { s with hdr := { s.hdr with next_free_node_index := idx + 1 } }
  if s.hdr.n_nodes ≤ idx then (none, s') else (some idx, s')

/-- The allocator `alloc_payload`: rejects `len = 0` and `len > MAX_VAL_LEN`,
rounds up to 8 bytes, checks the capacity before the CAS and returns the
pre-CAS cursor. Under the writer lock there is no contention, so the first
CAS iteration of the retry loop succeeds. -/
def alloc_payload (s : Seg) (len : Nat) : Option Nat × Seg :=
  if len = 0 ∨ MAX_VAL_LEN < len then (none, s)
  else
    let aligned_len := align_up len 8
    if s.hdr.payload_capacity < s.hdr.payload_alloc_off + aligned_len then (none, s)
    else (some s.hdr.payload_alloc_off,
      { s with hdr := { s.hdr with payload_alloc_off := s.hdr.payload_alloc_off + aligned_len } })

/-- The common writer body shared verbatim by `shm_insert` and every typed
insert: take the writer lock, bump the generation, compute the bucket,
allocate key then value payload (both calls are issued before either result
is checked), copy both byte strings, allocate a node slot, fill the node
(`flags = 1`, `version = 1`, `next = EMPTY_INDEX`), link it at the bucket
head (the CAS succeeds first try under the writer lock), bump the generation
again and unlock.  Every failure path bumps the generation a second time and
returns `NO_SPACE`. -/
def insert_record (s0 : Seg) (key valBytes : List Nat) (vtype : Nat) : ShmError × Seg :=
  let s1 := bumpGen s0
  let bucket := bucketOf s1 key
  match alloc_payload s1 key.length with
  | (kOpt, sk) =>
    match alloc_payload sk valBytes.length with
    | (vOpt, sv) =>
      match kOpt, vOpt with
      | some key_payload_off, some val_payload_off =>
        let s2 := writePayload sv key_payload_off key
        let s3 := writePayload s2 val_payload_off valBytes
        match alloc_node_index s3 with
        | (none, sn) => (ShmError.NO_SPACE, bumpGen sn)
        | (some node_idx, sn) =>
          let tmp : Node :=
            { key_off := u32 key_payload_off, key_len := u32 key.length,
              val_off := u32 val_payload_off, val_len := u32 valBytes.length,
              next_index := EMPTY_INDEX, flags := 1, version := 1, value_type := vtype }
          let s4 := setNode sn node_idx tmp
          let old_head := s4.buckets bucket
          let s5 := setNode s4 node_idx { tmp with next_index := old_head }
          let s6 := setBucket s5 bucket node_idx
          (ShmError.OK, bumpGen s6)
      | _, _ => (ShmError.NO_SPACE, bumpGen sv)

/-- The generic untyped insert `shm_insert`: the common writer body with the
raw value bytes and tag `SHM_TYPE_UNKNOWN`. -/
def shm_insert (s : Seg) (key value : List Nat) : ShmError × Seg :=
  insert_record s key value SHM_TYPE_UNKNOWN

/-- The typed insert `shm_insert_int_scalar`: the writer body with the 8 raw
bytes of the `int64_t` value and tag `SHM_TYPE_INT_SCALAR`. -/
def shm_insert_int_scalar (s : Seg) (key : List Nat) (value : Int) : ShmError × Seg :=
  insert_record s key (i64ToBytes value) SHM_TYPE_INT_SCALAR

/-- Insert `x` into a list ordered by the boolean comparator `le`. -/
def insertSorted (le : α → α → Bool) (x : α) : List α → List α
  | [] => [x]
  | y :: ys => if le x y then x :: y :: ys else y :: insertSorted le x ys

/-- Comparison sort by the boolean comparator `le`.  `std::sort` leaves the
order of equivalent elements unspecified; this structural insertion sort is
one refinement of it, producing an output ordered by `le` and a permutation
of the input, exactly the two properties `std::sort` guarantees. -/
def sortBy (le : α → α → Bool) : List α → List α
  | [] => []
  | x :: xs => insertSorted le x (sortBy le xs)

/-- Tail of `std::unique` on a partially consumed list: drop elements equal
to the previous kept element `prev`. -/
def dedupFrom (prev : Int) : List Int → List Int
  | [] => []
  | y :: ys => if y = prev then dedupFrom prev ys else y :: dedupFrom y ys

/-- Remove adjacent duplicates (`std::unique` followed by `erase`). -/
def dedup_adjacent : List Int → List Int
  | [] => []
  | x :: xs => x :: dedupFrom x xs

/-- Step 1 of `shm_insert_int_set`: `std::sort` then `std::unique`/`erase`
over the input `int64_t` array. -/
def sorted_unique (values : List Int) : List Int :=
  dedup_adjacent (sortBy (fun a b => decide (a ≤ b)) values)

/-- Payload encoding `[count:u32][elem0:i64]...[elem_{n-1}:i64]` written by
`shm_insert_int_set` for the sorted, deduplicated element list. -/
def encode_int_set (su : List Int) : List Nat :=
  u32ToBytes (u32 su.length) ++ (su.map i64ToBytes).flatten

/-- The typed insert `shm_insert_int_set`: sort and deduplicate, then the
writer body with the `INT_SET` payload layout and tag. -/
def shm_insert_int_set (s : Seg) (key : List Nat) (values : List Int) : ShmError × Seg :=
  insert_record s key (encode_int_set (sorted_unique values)) SHM_TYPE_INT_SET

/-- One dictionary entry of `shm_insert_dict_str_int` (`struct KVPair`). -/
structure KVPairInt where
  key_data : List Nat
  key_len : Nat
  value : Int
deriving DecidableEq, Repr

/-- The C `strncmp(a, b, n)`: compare at most `n` bytes, stopping early at a
NUL byte; returns a negative, zero or positive result. -/
def c_strncmp : List Nat → List Nat → Nat → Int
  | _, _, 0 => 0
  | [], _, _ + 1 => 0
  | _, [], _ + 1 => 0
  | x :: xs, y :: ys, n + 1 =>
    if x < y then -1 else if y < x then 1
    else if x = 0 then 0 else c_strncmp xs ys n

/-- The comparator `KVPair::operator<` of `shm_insert_dict_str_int`:
`strncmp` over the shorter length, ties broken by length. -/
def kvpair_lt (a b : KVPairInt) : Bool :=
  let cmp := c_strncmp a.key_data b.key_data (min a.key_len b.key_len)
  if cmp ≠ 0 then decide (cmp < 0) else decide (a.key_len < b.key_len)

/-- Offsets table for a list of variable-length blobs: `acc`, then `acc`
plus each prefix sum of the lengths (the `(count+1)`-entry offsets arrays of
the dictionary and string layouts). -/
def offs (acc : Nat) : List (List Nat) → List Nat
  | [] => [acc]
  | x :: xs => acc :: offs (acc + x.length) xs

/-- Payload encoding written by `shm_insert_dict_str_int`:
`[count:u32][key_offsets:(count+1)×u32][key bytes][values:count×i64]`. -/
def encode_dict_str_int (pairs : List KVPairInt) : List Nat :=
  u32ToBytes (u32 pairs.length)
    ++ ((offs 0 (pairs.map (·.key_data))).map (fun o => u32ToBytes (u32 o))).flatten
    ++ (pairs.map (·.key_data)).flatten
    ++ (pairs.map (fun p => i64ToBytes p.value)).flatten

/-- The typed insert `shm_insert_dict_str_int`: build the key/value pairs,
sort them by `KVPair::operator<` (no duplicate check is performed), then the
writer body with the `DICT_STR_INT` layout and tag. -/
def shm_insert_dict_str_int (s : Seg) (key : List Nat) (pairs : List KVPairInt) :
    ShmError × Seg :=
  let sorted := sortBy (fun a b => ! kvpair_lt b a) pairs
  insert_record s key (encode_dict_str_int sorted) SHM_TYPE_DICT_STR_INT

/-- The C helper `bytes_less(a, a_len, b, b_len)`: `memcmp` over the common
length, ties broken by length (bytewise lexicographic order). -/
def bytes_less : List Nat → List Nat → Bool
  | _, [] => false
  | [], _ :: _ => true
  | a :: as, b :: bs => if a < b then true else if b < a then false else bytes_less as bs

/-- One field of `shm_insert_object`: name bytes, type tag byte, and the
already-encoded payload bytes of the field value. -/
structure ObjField where
  name : List Nat
  ftype : Nat
  payload : List Nat
deriving DecidableEq, Repr

/-- Duplicate scan of `shm_insert_object`: after sorting, any two adjacent
fields with `bytes_equal` names are rejected. -/
def adjacent_dup : List ObjField → Bool
  | [] => false
  | [_] => false
  | f :: g :: rest => if f.name = g.name then true else adjacent_dup (g :: rest)

/-- Payload encoding written by `shm_insert_object` for the sorted field
list: `[count:u32][name_offsets:(count+1)×u32][names blob][type tags:count]`,
zero padding to a 4-byte boundary (the arena is zero-initialized and the pad
bytes are never written), then `[value_offsets:(count+1)×u32][values blob]`. -/
def encode_object (sorted : List ObjField) : List Nat :=
  let count := sorted.length
  let names := sorted.map (·.name)
  let total_names := (names.map List.length).sum
  let base := 4 + 4 * (count + 1) + total_names + count
  u32ToBytes (u32 count)
    ++ ((offs 0 names).map (fun o => u32ToBytes (u32 o))).flatten
    ++ names.flatten
    ++ sorted.map (·.ftype)
    ++ List.replicate (align_up base 4 - base) 0
    ++ ((offs 0 (sorted.map (·.payload))).map (fun o => u32ToBytes (u32 o))).flatten
    ++ (sorted.map (·.payload)).flatten

/-- The typed insert `shm_insert_object`: sort the fields by `bytes_less` on
their names, reject adjacent duplicate names with `INVALID_PARAM` before
taking the lock, then the writer body with the `OBJECT` layout and tag. -/
def shm_insert_object (s : Seg) (key : List Nat) (fields : List ObjField) :
    ShmError × Seg :=
  let sorted := sortBy (fun a b => ! bytes_less b.name a.name) fields
  if adjacent_dup sorted then (ShmError.INVALID_PARAM, s)
  else insert_record s key (encode_object sorted) SHM_TYPE_OBJECT

/-- Chain walk of `find_node_by_key` (also inlined in `shm_lookup`): follow
`next_index` from a bucket head, returning the first active node whose key
length and key bytes match.  The C loop is unbounded; reachable chains visit
strictly decreasing node indices below `n_nodes`, so `n_nodes + 1` steps of
fuel are always sufficient. -/
def findFrom (s : Seg) (key : List Nat) : Nat → Nat → Option Nat
  | 0, _ => none
  | fuel + 1, idx =>
    if idx = EMPTY_INDEX then none
    else
      let n := s.nodes idx
      if n.flags % 2 = 1 ∧ n.key_len = key.length ∧
          readBytes s.payload n.key_off n.key_len = key then some idx
      else findFrom s key fuel n.next_index

/-- The reader helper `find_node_by_key`. -/
def find_node_by_key (s : Seg) (key : List Nat) : Option Nat :=
  findFrom s key (s.hdr.n_nodes + 1) (s.buckets (bucketOf s key))

/-- The generic lookup `shm_lookup`, parameterized by the generation values
`g1`/`g2` its two atomic loads observe.  On a key match the out parameters
are set before `g2` is sampled; with `g1 = g2` the call returns `OK`, else
`CONCURRENT_MOD`.  When the chain ends without a match, `g2` is still
sampled: `CONCURRENT_MOD` if it changed, else `NOT_FOUND`. -/
def shm_lookup_obs (s : Seg) (g1 g2 : Nat) (key : List Nat) :
    ShmError × Option (List Nat) :=
  match find_node_by_key s key with
  | some idx =>
    let n := s.nodes idx
    let v := readBytes s.payload n.val_off n.val_len
    if g1 = g2 then (ShmError.OK, some v) else (ShmError.CONCURRENT_MOD, some v)
  | none =>
    if g1 ≠ g2 then (ShmError.CONCURRENT_MOD, none) else (ShmError.NOT_FOUND, none)

/-- The generic lookup in a quiescent interval: both generation loads return
the current header value. -/
def shm_lookup_seq (s : Seg) (key : List Nat) : ShmError × Option (List Nat) :=
  shm_lookup_obs s s.hdr.generation s.hdr.generation key

/-- The typed lookup `shm_lookup_int_scalar` (observed-generation form).
When `find_node_by_key` returns no node the function returns `NOT_FOUND`
immediately, before any second generation sample. -/
def shm_lookup_int_scalar_obs (s : Seg) (g1 g2 : Nat) (key : List Nat) :
    ShmError × Option Int :=
  match find_node_by_key s key with
  | none => (ShmError.NOT_FOUND, none)
  | some idx =>
    let n := s.nodes idx
    if n.value_type ≠ SHM_TYPE_INT_SCALAR then (ShmError.TYPE_MISMATCH, none)
    else
      let v := i64FromBytes (readBytes s.payload n.val_off 8)
      if g1 ≠ g2 then (ShmError.CONCURRENT_MOD, some v) else (ShmError.OK, some v)

/-- The typed lookup `shm_lookup_int_scalar` in a quiescent interval. -/
def shm_lookup_int_scalar_seq (s : Seg) (key : List Nat) : ShmError × Option Int :=
  shm_lookup_int_scalar_obs s s.hdr.generation s.hdr.generation key

/-- The reader `shm_get_value_type` (observed-generation form); like the
typed lookups it returns `NOT_FOUND` without a second generation sample. -/
def shm_get_value_type_obs (s : Seg) (g1 g2 : Nat) (key : List Nat) :
    ShmError × Option Nat :=
  match find_node_by_key s key with
  | none => (ShmError.NOT_FOUND, none)
  | some idx =>
    let t := (s.nodes idx).value_type
    if g1 ≠ g2 then (ShmError.CONCURRENT_MOD, some t) else (ShmError.OK, some t)

/-- The reader `shm_get_value_type` in a quiescent interval. -/
def shm_get_value_type_seq (s : Seg) (key : List Nat) : ShmError × Option Nat :=
  shm_get_value_type_obs s s.hdr.generation s.hdr.generation key

/-- The zero-copy view returned by `shm_lookup_int_set`
(`shm_int_set_view_t`): the element count read from the payload and the
`count` elements the data pointer exposes. -/
structure IntSetView where
  data : List Int
  count : Nat
deriving DecidableEq, Repr

/-- The typed lookup `shm_lookup_int_set` (observed-generation form). -/
def shm_lookup_int_set_obs (s : Seg) (g1 g2 : Nat) (key : List Nat) :
    ShmError × Option IntSetView :=
  match find_node_by_key s key with
  | none => (ShmError.NOT_FOUND, none)
  | some idx =>
    let n := s.nodes idx
    if n.value_type ≠ SHM_TYPE_INT_SET then (ShmError.TYPE_MISMATCH, none)
    else
      let count := u32FromBytes (readBytes s.payload n.val_off 4)
      let data := (List.range count).map
        (fun i => i64FromBytes (readBytes s.payload (n.val_off + 4 + 8 * i) 8))
      if g1 ≠ g2 then (ShmError.CONCURRENT_MOD, some ⟨data, count⟩)
      else (ShmError.OK, some ⟨data, count⟩)

/-- The typed lookup `shm_lookup_int_set` in a quiescent interval. -/
def shm_lookup_int_set_seq (s : Seg) (key : List Nat) : ShmError × Option IntSetView :=
  shm_lookup_int_set_obs s s.hdr.generation s.hdr.generation key

/-- The zero-copy view `shm_object_view_t` returned by `shm_lookup_object`:
the field count plus the five pointers into the mapping, modelled as the
reader functions those pointers expose (`name_offsets` and `value_offsets`
read whole `u32` entries, `names_data` / `field_types` / `values_data` read
single bytes). -/
structure ObjectView where
  count : Nat
  name_offsets : Nat → Nat
  names_data : Nat → Nat
  field_types : Nat → Nat
  value_offsets : Nat → Nat
  values_data : Nat → Nat

/-- The view `shm_lookup_object` builds from a node's value payload,
computing the five area pointers exactly as the C pointer arithmetic does:
names blob at `ptr + 4 + 4(count+1)`, type tags right after
`name_offsets[count]` names bytes, then alignment to 4 for the value
offsets, then the values blob. -/
def objViewAt (mem : Nat → Nat) (ptr : Nat) : ObjectView :=
  let count := u32FromBytes (readBytes mem ptr 4)
  let nameOff := fun j => u32FromBytes (readBytes mem (ptr + 4 + 4 * j) 4)
  let names_base := ptr + 4 + 4 * (count + 1)
  let types_base := names_base + nameOff count
  let after_types := ptr + align_up (4 + 4 * (count + 1) + nameOff count + count) 4
  let values_base := after_types + 4 * (count + 1)
  { count := count
    name_offsets := nameOff
    names_data := fun j => mem (names_base + j)
    field_types := fun j => mem (types_base + j)
    value_offsets := fun j => u32FromBytes (readBytes mem (after_types + 4 * j) 4)
    values_data := fun j => mem (values_base + j) }

/-- The typed lookup `shm_lookup_object` (observed-generation form). -/
def shm_lookup_object_obs (s : Seg) (g1 g2 : Nat) (key : List Nat) :
    ShmError × Option ObjectView :=
  match find_node_by_key s key with
  | none => (ShmError.NOT_FOUND, none)
  | some idx =>
    let n := s.nodes idx
    if n.value_type ≠ SHM_TYPE_OBJECT then (ShmError.TYPE_MISMATCH, none)
    else
      let view := objViewAt s.payload n.val_off
      if g1 ≠ g2 then (ShmError.CONCURRENT_MOD, some view)
      else (ShmError.OK, some view)

/-- The typed lookup `shm_lookup_object` in a quiescent interval. -/
def shm_lookup_object_seq (s : Seg) (key : List Nat) : ShmError × Option ObjectView :=
  shm_lookup_object_obs s s.hdr.generation s.hdr.generation key

/-- Read `len` bytes through one of a view's byte readers. -/
def readView (f : Nat → Nat) (off len : Nat) : List Nat :=
  (List.range len).map (fun i => f (off + i))

/-- The binary-search loop of `shm_object_get_field` over `[lo, hi)`:
compare the middle field's name with `bytes_equal` / `bytes_less` and
narrow the interval; on a hit return the field's type tag and its
`[value_offsets[mid], value_offsets[mid+1])` payload slice.  The C `while`
loop halves `hi - lo` each iteration; the explicit fuel argument (called
with `v.count`, an upper bound on `hi - lo`) makes the recursion
structural. -/
def get_field_fuel (v : ObjectView) (name : List Nat) : Nat → Nat → Nat →
    ShmError × Option (Nat × List Nat)
  | 0, _, _ => (ShmError.NOT_FOUND, none)
  | fuel + 1, lo, hi =>
    if lo < hi then
      let mid := lo + (hi - lo) / 2
      let start := v.name_offsets mid
      let nend := v.name_offsets (mid + 1)
      let nm := readView v.names_data start (nend - start)
      if nm = name then
        let vstart := v.value_offsets mid
        let vend := v.value_offsets (mid + 1)
        (ShmError.OK, some (v.field_types mid, readView v.values_data vstart (vend - vstart)))
      else if bytes_less nm name then get_field_fuel v name fuel (mid + 1) hi
      else get_field_fuel v name fuel lo mid
    else (ShmError.NOT_FOUND, none)

/-- The field accessor `shm_object_get_field`: binary search on the sorted
name table of an object view. -/
def shm_object_get_field (v : ObjectView) (name : List Nat) :
    ShmError × Option (Nat × List Nat) :=
  get_field_fuel v name v.count 0 v.count

/-- The helper `shm_lookup_copy` in a quiescent interval: generic lookup,
report the stored length, `NO_SPACE` if the caller buffer is too small,
else copy the bytes out. -/
def shm_lookup_copy_seq (s : Seg) (key : List Nat) (buffer_size : Nat) :
    ShmError × Option (List Nat) × Option Nat :=
  match shm_lookup_seq s key with
  | (ShmError.OK, some v) =>
    if buffer_size < v.length then (ShmError.NO_SPACE, none, some v.length)
    else (ShmError.OK, some v, some v.length)
  | (e, _) => (e, none, none)

/-- Constant `TEMP_BUFFER_SIZE = 1MB` used by `shm_lookup_decrypted`. -/
def TEMP_BUFFER_SIZE : Nat := 1024 * 1024

/-- The reader `shm_lookup_decrypted`, in a quiescent interval.  The AES-128
ECB decryption is abstracted as the parameter `aesDec` (`none` models an
`EVP_Decrypt*` failure); `authorized` is the result of
`shm_check_authorized`.  The function discards its `buffer_size` parameter
(`(void)buffer_size` in the source), copies the stored bytes into a 1MB
temporary, requires at least 4 stored bytes, decrypts everything after the
4-byte length prefix straight into the caller's buffer, and reports the
stored prefix as `*out_value_len`.  The result pair on `OK` is (bytes written
to `out_buffer`, value stored in `*out_value_len`). -/
def shm_lookup_decrypted (aesDec : List Nat → Option (List Nat)) (s : Seg)
    (key : List Nat) (buffer_size : Nat) (authorized : Bool) :
    ShmError × Option (List Nat × Nat) :=
  let _ := buffer_size
  if ¬ authorized then (ShmError.PERMISSION_DENIED, none)
  else
    match shm_lookup_copy_seq s key TEMP_BUFFER_SIZE with
    | (ShmError.OK, some temp, _) =>
      if temp.length < 4 then (ShmError.INVALID_PARAM, none)
      else
        let original_val_len := u32FromBytes (temp.take 4)
        match aesDec (temp.drop 4) with
        | none => (ShmError.OPEN_FAILED, none)
        | some decrypted => (ShmError.OK, some (decrypted, original_val_len))
    | (e, _, _) => (e, none)

/-- An operation of the crash-free sequential histories the spec quantifies
over: the modelled inserts plus the generic lookup (lookups do not modify
the segment). -/
inductive Op where
  | ins (key value : List Nat)
  | insInt (key : List Nat) (v : Int)
  | insIntSet (key : List Nat) (vs : List Int)
  | insDict (key : List Nat) (pairs : List KVPairInt)
  | insObject (key : List Nat) (fields : List ObjField)
  | lookup (key : List Nat)

/-- Apply one operation to a segment, returning its error code. -/
def applyOp (s : Seg) : Op → ShmError × Seg
  | .ins k v => shm_insert s k v
  | .insInt k v => shm_insert_int_scalar s k v
  | .insIntSet k vs => shm_insert_int_set s k vs
  | .insDict k ps => shm_insert_dict_str_int s k ps
  | .insObject k fs => shm_insert_object s k fs
  | .lookup k => ((shm_lookup_seq s k).1, s)

/-- The record an insert operation writes if it succeeds: key bytes, encoded
value bytes, and value-type tag. -/
def opRecord : Op → Option (List Nat × List Nat × Nat)
  | .ins k v => some (k, v, SHM_TYPE_UNKNOWN)
  | .insInt k v => some (k, i64ToBytes v, SHM_TYPE_INT_SCALAR)
  | .insIntSet k vs => some (k, encode_int_set (sorted_unique vs), SHM_TYPE_INT_SET)
  | .insDict k ps =>
    some (k, encode_dict_str_int (sortBy (fun a b => ! kvpair_lt b a) ps), SHM_TYPE_DICT_STR_INT)
  | .insObject k fs =>
    some (k, encode_object (sortBy (fun a b => ! bytes_less b.name a.name) fs), SHM_TYPE_OBJECT)
  | .lookup _ => none

/-- Run a sequential history, collecting the log of successful inserts with
the most recent first. -/
def runH : Seg → List Op → Seg × List (List Nat × List Nat × Nat)
  | s, [] => (s, [])
  | s, op :: ops =>
    let r := applyOp s op
    let rest := runH r.2 ops
    (rest.1,
      rest.2 ++ (match opRecord op, r.1 with
                 | some e, ShmError.OK => [e]
                 | _, _ => []))

/-- The abstract content a key lookup observes in a segment: the value bytes
and type tag of the node `find_node_by_key` returns, if any. -/
def findRead (s : Seg) (key : List Nat) : Option (List Nat × Nat) :=
  (find_node_by_key s key).map (fun i =>
    (readBytes s.payload (s.nodes i).val_off (s.nodes i).val_len, (s.nodes i).value_type))

/-- The most recent successful insert of `key` recorded in a history log. -/
def logFind (log : List (List Nat × List Nat × Nat)) (key : List Nat) :
    Option (List Nat × Nat) :=
  (log.find? (fun e => e.1 = key)).map (·.2)

/-- Fuel needed to walk the chain headed at `idx` to its end: chains visit
strictly decreasing node indices, so `idx + 1` steps reach the tail. -/
def chainMeasure (idx : Nat) : Nat := if idx = EMPTY_INDEX then 0 else idx + 1

/-- Well-formed bucket chain headed at `idx`: either empty, or a written
node below `n_nodes` and below the node cursor whose successor is a
well-formed chain at a strictly smaller index.  Every chain the sequential
writer builds has this shape, because a node's `next_index` is set to the
previous bucket head, which was allocated earlier. -/
inductive ChainOK (s : Seg) : Nat → Prop where
  | nil : ChainOK s EMPTY_INDEX
  | cons (idx : Nat) :
      idx < s.hdr.n_nodes →
      idx < s.hdr.next_free_node_index →
      ((s.nodes idx).next_index = EMPTY_INDEX ∨ (s.nodes idx).next_index < idx) →
      ChainOK s ((s.nodes idx).next_index) →
      ChainOK s idx

/-- Invariant of every segment state reachable from `initSeg` by the
sequential API: positive bucket count, 32-bit geometry (the header stores
`n_buckets`/`n_nodes` as `uint32_t` and the areas fit one mapping), the
payload cursor within capacity, well-formed bucket chains, and every
written node's key and value byte ranges committed below the cursor. -/
structure Good (s : Seg) : Prop where
  nb_pos : 0 < s.hdr.n_buckets
  nb_lt : s.hdr.n_buckets < 2 ^ 32
  nn_lt : s.hdr.n_nodes < 2 ^ 32
  cap_lt : s.hdr.payload_capacity < 2 ^ 32
  cursor_le : s.hdr.payload_alloc_off ≤ s.hdr.payload_capacity
  chains : ∀ b, b < s.hdr.n_buckets → ChainOK s (s.buckets b)
  regions : ∀ i, i < s.hdr.n_nodes → i < s.hdr.next_free_node_index →
    (s.nodes i).key_off + (s.nodes i).key_len ≤ s.hdr.payload_alloc_off ∧
    (s.nodes i).val_off + (s.nodes i).val_len ≤ s.hdr.payload_alloc_off

/-- Placeholder field used as the `getD` default when indexing field
lists. -/
def dummyField : ObjField := ⟨[], 0, []⟩

/-- Sequential scan of an object's field list: the result
`shm_object_get_field` is claimed to agree with. -/
def objScan (fields : List ObjField) (name : List Nat) :
    ShmError × Option (Nat × List Nat) :=
  match fields.find? (fun f => f.name = name) with
  | some f => (ShmError.OK, some (f.ftype, f.payload))
  | none => (ShmError.NOT_FOUND, none)

/-- Name bytes of field `i` as an object view exposes them
(`names_data + name_offsets[i]`, length `name_offsets[i+1] -
name_offsets[i]`). -/
def viewName (v : ObjectView) (i : Nat) : List Nat :=
  readView v.names_data (v.name_offsets i) (v.name_offsets (i + 1) - v.name_offsets i)

/-- Value payload bytes of field `i` as an object view exposes them. -/
def viewValue (v : ObjectView) (i : Nat) : List Nat :=
  readView v.values_data (v.value_offsets i) (v.value_offsets (i + 1) - v.value_offsets i)

/-- Abstraction relation between an `ObjectView` and the sorted field list
it was encoded from: the counts agree and every per-field read through the
view returns that field's name, type tag and payload bytes. -/
def ViewModels (v : ObjectView) (fields : List ObjField) : Prop :=
  v.count = fields.length ∧
  ∀ i, i < fields.length →
    viewName v i = (fields.getD i dummyField).name ∧
    v.field_types i = (fields.getD i dummyField).ftype ∧
    viewValue v i = (fields.getD i dummyField).payload

/-- Sample AES decryption stand-in used to exercise
`shm_lookup_decrypted` on concrete inputs: maps `l` to `l ++ l ++ l`, so
the decrypted output is visibly longer than a zero-size caller buffer. -/
def decTriple (l : List Nat) : Option (List Nat) := some (l ++ l ++ l)

/-- Concrete segment holding one encrypted-envelope record under key `[7]`:
4-byte length prefix `5`, then 4 ciphertext bytes. -/
def c10seg : Seg := (shm_insert (initSeg 4 4 128) [7] [5, 0, 0, 0, 9, 9, 9, 9]).2

/-
Helper lemmas: byte memory, alignment, allocators.
-/

lemma le_align_up8 (x : Nat) : x ≤ align_up x 8 := by
  have h := Nat.div_add_mod (x + 7) 8
  have h2 : (x + 7) % 8 < 8 := Nat.mod_lt _ (by norm_num)
  unfold align_up
  omega

lemma le_align_up4 (x : Nat) : x ≤ align_up x 4 := by
  have h := Nat.div_add_mod (x + 3) 4
  have h2 : (x + 3) % 4 < 4 := Nat.mod_lt _ (by norm_num)
  unfold align_up
  omega

lemma writeBytes_apply_lt (mem : Nat → Nat) (off : Nat) (bs : List Nat) (a : Nat)
    (h : a < off) : writeBytes mem off bs a = mem a := by
  unfold writeBytes
  rw [if_neg]
  omega

lemma writeBytes_apply_ge (mem : Nat → Nat) (off : Nat) (bs : List Nat) (a : Nat)
    (h : off + bs.length ≤ a) : writeBytes mem off bs a = mem a := by
  unfold writeBytes
  rw [if_neg]
  omega

lemma writeBytes_apply_in (mem : Nat → Nat) (off : Nat) (bs : List Nat) (i : Nat)
    (h : i < bs.length) : writeBytes mem off bs (off + i) = bs.getD i 0 := by
  unfold writeBytes
  rw [if_pos (by omega)]
  congr 1
  omega

lemma map_range_getD {α : Type} (d : α) (bs : List α) :
    (List.range bs.length).map (fun i => bs.getD i d) = bs := by
  apply List.ext_getElem
  · simp
  · intro i h1 h2
    simp [List.getD_eq_getElem?_getD, List.getElem?_eq_getElem h2]

lemma readBytes_writeBytes_self (mem : Nat → Nat) (off : Nat) (bs : List Nat) :
    readBytes (writeBytes mem off bs) off bs.length = bs := by
  unfold readBytes
  calc (List.range bs.length).map (fun i => writeBytes mem off bs (off + i))
      = (List.range bs.length).map (fun i => bs.getD i 0) := by
        apply List.map_congr_left
        intro i hi
        exact writeBytes_apply_in mem off bs i (List.mem_range.mp hi)
    _ = bs := map_range_getD 0 bs

lemma readBytes_writeBytes_below (mem : Nat → Nat) (off : Nat) (bs : List Nat)
    (off' len : Nat) (h : off' + len ≤ off) :
    readBytes (writeBytes mem off bs) off' len = readBytes mem off' len := by
  unfold readBytes
  apply List.map_congr_left
  intro i hi
  exact writeBytes_apply_lt mem off bs _ (by have := List.mem_range.mp hi; omega)

lemma readBytes_writeBytes_above (mem : Nat → Nat) (off : Nat) (bs : List Nat)
    (off' len : Nat) (h : off + bs.length ≤ off') :
    readBytes (writeBytes mem off bs) off' len = readBytes mem off' len := by
  unfold readBytes
  apply List.map_congr_left
  intro i hi
  exact writeBytes_apply_ge mem off bs _ (by omega)

lemma readBytes_congr (mem mem' : Nat → Nat) (off len : Nat)
    (h : ∀ a, off ≤ a → a < off + len → mem' a = mem a) :
    readBytes mem' off len = readBytes mem off len := by
  unfold readBytes
  apply List.map_congr_left
  intro i hi
  exact h _ (by omega) (by have := List.mem_range.mp hi; omega)

lemma readBytes_length (mem : Nat → Nat) (off len : Nat) :
    (readBytes mem off len).length = len := by
  simp [readBytes]

lemma alloc_payload_none {s : Seg} {len : Nat} {s2 : Seg}
    (h : alloc_payload s len = (none, s2)) : s2 = s := by
  unfold alloc_payload at h
  dsimp only at h
  split at h
  · exact (Prod.mk.injEq _ _ _ _ ▸ h).2.symm
  · split at h
    · exact (Prod.mk.injEq _ _ _ _ ▸ h).2.symm
    · exact absurd (Prod.mk.injEq _ _ _ _ ▸ h).1 (by simp)

lemma alloc_payload_some {s : Seg} {len : Nat} {off : Nat} {s2 : Seg}
    (h : alloc_payload s len = (some off, s2)) :
    off = s.hdr.payload_alloc_off ∧
    s2 = { s with hdr := { s.hdr with
      payload_alloc_off := s.hdr.payload_alloc_off + align_up len 8 } } ∧
    len ≠ 0 ∧ len ≤ MAX_VAL_LEN ∧
    s.hdr.payload_alloc_off + align_up len 8 ≤ s.hdr.payload_capacity := by
  unfold alloc_payload at h
  dsimp only at h
  split at h
  · exact absurd (Prod.mk.injEq _ _ _ _ ▸ h).1 (by simp)
  · split at h
    · exact absurd (Prod.mk.injEq _ _ _ _ ▸ h).1 (by simp)
    · have h1 := (Prod.mk.injEq _ _ _ _ ▸ h).1
      have h2 := (Prod.mk.injEq _ _ _ _ ▸ h).2
      refine ⟨by exact (Option.some.injEq _ _ ▸ h1).symm, h2.symm, ?_, ?_, ?_⟩ <;> omega

lemma alloc_node_index_none {s : Seg} {s2 : Seg}
    (h : alloc_node_index s = (none, s2)) :
    s2 = { s with hdr := { s.hdr with
      next_free_node_index := s.hdr.next_free_node_index + 1 } } ∧
    s.hdr.n_nodes ≤ s.hdr.next_free_node_index := by
  unfold alloc_node_index at h
  dsimp only at h
  split at h
  · exact ⟨(Prod.mk.injEq _ _ _ _ ▸ h).2.symm, by assumption⟩
  · exact absurd (Prod.mk.injEq _ _ _ _ ▸ h).1 (by simp)

lemma alloc_node_index_some {s : Seg} {idx : Nat} {s2 : Seg}
    (h : alloc_node_index s = (some idx, s2)) :
    idx = s.hdr.next_free_node_index ∧
    s2 = { s with hdr := { s.hdr with
      next_free_node_index := s.hdr.next_free_node_index + 1 } } ∧
    s.hdr.next_free_node_index < s.hdr.n_nodes := by
  unfold alloc_node_index at h
  dsimp only at h
  split at h
  · exact absurd (Prod.mk.injEq _ _ _ _ ▸ h).1 (by simp)
  · refine ⟨(Option.some.injEq _ _ ▸ (Prod.mk.injEq _ _ _ _ ▸ h).1).symm,
      (Prod.mk.injEq _ _ _ _ ▸ h).2.symm, by omega⟩

/-- Characterization of a successful `insert_record`: the input bounds the
allocators enforced, and the exact final state: cursors advanced, the new
node written at the old node cursor with truncated offsets, the bucket head
swung to it, key and value bytes copied at the allocated offsets, and the
generation advanced twice. -/
lemma insert_record_ok {s : Seg} {key bs : List Nat} {t : Nat} {s' : Seg}
    (h : insert_record s key bs t = (ShmError.OK, s')) :
    key.length ≠ 0 ∧ key.length ≤ MAX_VAL_LEN ∧ bs.length ≠ 0 ∧ bs.length ≤ MAX_VAL_LEN ∧
    s.hdr.next_free_node_index < s.hdr.n_nodes ∧
    s.hdr.payload_alloc_off + align_up key.length 8 + align_up bs.length 8 ≤
      s.hdr.payload_capacity ∧
    s'.hdr.n_buckets = s.hdr.n_buckets ∧
    s'.hdr.n_nodes = s.hdr.n_nodes ∧
    s'.hdr.payload_capacity = s.hdr.payload_capacity ∧
    s'.hdr.next_free_node_index = s.hdr.next_free_node_index + 1 ∧
    s'.hdr.payload_alloc_off =
      s.hdr.payload_alloc_off + align_up key.length 8 + align_up bs.length 8 ∧
    s'.hdr.generation = s.hdr.generation + 2 ∧
    (∀ i, s'.buckets i =
      if i = bucketOf s key then s.hdr.next_free_node_index else s.buckets i) ∧
    (∀ j, s'.nodes j =
      if j = s.hdr.next_free_node_index then
        { key_off := u32 s.hdr.payload_alloc_off, key_len := u32 key.length,
          val_off := u32 (s.hdr.payload_alloc_off + align_up key.length 8),
          val_len := u32 bs.length,
          next_index := s.buckets (bucketOf s key), flags := 1, version := 1,
          value_type := t }
      else s.nodes j) ∧
    s'.payload = writeBytes (writeBytes s.payload s.hdr.payload_alloc_off key)
      (s.hdr.payload_alloc_off + align_up key.length 8) bs := by
  unfold insert_record at h
  dsimp only at h
  rcases hk : alloc_payload (bumpGen s) key.length with ⟨kOpt, sk⟩
  rw [hk] at h
  dsimp only at h
  rcases hv : alloc_payload sk bs.length with ⟨vOpt, sv⟩
  rw [hv] at h
  dsimp only at h
  cases kOpt with
  | none => cases vOpt <;> simp at h
  | some koff =>
    cases vOpt with
    | none => simp at h
    | some voff =>
      dsimp only at h
      rcases hn : alloc_node_index (writePayload (writePayload sv koff key) voff bs) with
        ⟨nOpt, sn⟩
      rw [hn] at h
      cases nOpt with
      | none => simp at h
      | some nidx =>
        dsimp only at h
        obtain ⟨hoff, hsk, hk0, hkM, hkcap⟩ := alloc_payload_some hk
        subst hsk
        obtain ⟨hvoff, hsv, hv0, hvM, hvcap⟩ := alloc_payload_some hv
        subst hsv
        obtain ⟨hidx, hsn, hlt⟩ := alloc_node_index_some hn
        subst hsn
        subst hoff
        subst hvoff
        subst hidx
        obtain ⟨-, hs'⟩ := Prod.mk.injEq _ _ _ _ ▸ h
        subst hs'
        refine ⟨hk0, by omega, hv0, by omega, by simpa [bumpGen, writePayload] using hlt,
      by simpa [bumpGen] using hvcap, rfl, rfl, rfl, rfl, rfl, rfl, ?_, ?_, rfl⟩
        · intro i
          rfl
        · intro j
          by_cases hj : j = s.hdr.next_free_node_index <;>
            simp [bumpGen, setNode, setBucket, writePayload, hj, bucketOf]

/-- Characterization of a failed `insert_record`: the error is `NO_SPACE`,
the bucket heads and node records are untouched, the payload bytes below the
old cursor are untouched, the geometry is unchanged, and both cursors are
only ever advanced (staying within capacity whenever they move). -/
lemma insert_record_fail {s : Seg} {key bs : List Nat} {t : Nat} {e : ShmError} {s' : Seg}
    (h : insert_record s key bs t = (e, s')) (he : e ≠ ShmError.OK) :
    e = ShmError.NO_SPACE ∧
    (∀ b, s'.buckets b = s.buckets b) ∧
    (∀ j, s'.nodes j = s.nodes j) ∧
    (∀ a, a < s.hdr.payload_alloc_off → s'.payload a = s.payload a) ∧
    s'.hdr.n_buckets = s.hdr.n_buckets ∧
    s'.hdr.n_nodes = s.hdr.n_nodes ∧
    s'.hdr.payload_capacity = s.hdr.payload_capacity ∧
    s.hdr.next_free_node_index ≤ s'.hdr.next_free_node_index ∧
    s.hdr.payload_alloc_off ≤ s'.hdr.payload_alloc_off ∧
    (s'.hdr.payload_alloc_off = s.hdr.payload_alloc_off ∨
      s'.hdr.payload_alloc_off ≤ s.hdr.payload_capacity) ∧
    (s'.hdr.next_free_node_index = s.hdr.next_free_node_index ∨
      s.hdr.n_nodes ≤ s.hdr.next_free_node_index) := by
  unfold insert_record at h
  dsimp only at h
  rcases hk : alloc_payload (bumpGen s) key.length with ⟨kOpt, sk⟩
  rw [hk] at h
  dsimp only at h
  rcases hv : alloc_payload sk bs.length with ⟨vOpt, sv⟩
  rw [hv] at h
  dsimp only at h
  have hksk : (kOpt = none ∧ sk = bumpGen s) ∨
      (∃ o, kOpt = some o ∧
        sk = { bumpGen s with hdr := { (bumpGen s).hdr with
          payload_alloc_off := s.hdr.payload_alloc_off + align_up key.length 8 } } ∧
        s.hdr.payload_alloc_off + align_up key.length 8 ≤ s.hdr.payload_capacity) := by
    cases kOpt with
    | none => exact Or.inl ⟨rfl, alloc_payload_none hk⟩
    | some o =>
      obtain ⟨ho, hsk, _, _, hc⟩ := alloc_payload_some hk
      exact Or.inr ⟨o, rfl, hsk, by simpa [bumpGen] using hc⟩
  have hvsv : (vOpt = none ∧ sv = sk) ∨
      (∃ o, vOpt = some o ∧
        sv = { sk with hdr := { sk.hdr with
          payload_alloc_off := sk.hdr.payload_alloc_off + align_up bs.length 8 } } ∧
        sk.hdr.payload_alloc_off + align_up bs.length 8 ≤ sk.hdr.payload_capacity) := by
    cases vOpt with
    | none => exact Or.inl ⟨rfl, alloc_payload_none hv⟩
    | some o =>
      obtain ⟨ho, hsv, _, _, hc⟩ := alloc_payload_some hv
      exact Or.inr ⟨o, rfl, hsv, hc⟩
  cases kOpt with
  | none =>
    obtain ⟨-, hsk⟩ | ⟨o, ho, -⟩ := hksk
    · subst hsk
      cases vOpt with
      | none =>
        obtain ⟨-, hsv⟩ | ⟨o, ho, -⟩ := hvsv
        · subst hsv
          obtain ⟨hee, hs'⟩ := Prod.mk.injEq _ _ _ _ ▸ h
          subst hs'
          exact ⟨hee.symm, fun b => rfl, fun j => rfl, fun a _ => rfl, rfl, rfl, rfl,
            by simp [bumpGen], by simp [bumpGen], Or.inl rfl, Or.inl rfl⟩
        · simp at ho
      | some o2 =>
        obtain ⟨hno, -⟩ | ⟨o, ho, hsv, hc⟩ := hvsv
        · simp at hno
        · subst hsv
          obtain ⟨hee, hs'⟩ := Prod.mk.injEq _ _ _ _ ▸ h
          subst hs'
          refine ⟨hee.symm, fun b => rfl, fun j => rfl, fun a _ => rfl, rfl, rfl, rfl,
            by dsimp only [bumpGen]; omega, by dsimp only [bumpGen]; omega,
            Or.inr (by dsimp only [bumpGen] at hc ⊢; omega), Or.inl rfl⟩
    · simp at ho
  | some koff =>
    obtain ⟨hno, -⟩ | ⟨o, ho, hsk, hc1⟩ := hksk
    · simp at hno
    · subst hsk
      cases vOpt with
      | none =>
        obtain ⟨-, hsv⟩ | ⟨o2, ho2, -⟩ := hvsv
        · subst hsv
          obtain ⟨hee, hs'⟩ := Prod.mk.injEq _ _ _ _ ▸ h
          subst hs'
          refine ⟨hee.symm, fun b => rfl, fun j => rfl, fun a _ => rfl, rfl, rfl, rfl,
            by dsimp only [bumpGen]; omega, by dsimp only [bumpGen]; omega,
            Or.inr (by dsimp only [bumpGen] at hc1 ⊢; omega), Or.inl rfl⟩
        · simp at ho2
      | some voff =>
        obtain ⟨hno, -⟩ | ⟨o2, ho2, hsv, hc2⟩ := hvsv
        · simp at hno
        · subst hsv
          dsimp only at h
          rcases hn : alloc_node_index (writePayload (writePayload _ koff key) voff bs) with
            ⟨nOpt, sn⟩
          rw [hn] at h
          cases nOpt with
          | none =>
            obtain ⟨hsn, hfull⟩ := alloc_node_index_none hn
            subst hsn
            obtain ⟨hee, hs'⟩ := Prod.mk.injEq _ _ _ _ ▸ h
            subst hs'
            obtain ⟨hoff, -, -, -, -⟩ := alloc_payload_some hk
            subst hoff
            have hvo := (alloc_payload_some hv).1
            dsimp only [bumpGen] at hvo hc2
            subst hvo
            have h8 := le_align_up8 key.length
            refine ⟨hee.symm, fun b => rfl, fun j => rfl, ?_, rfl, rfl, rfl,
              by dsimp only [bumpGen, writePayload]; omega,
              by dsimp only [bumpGen, writePayload]; omega,
              Or.inr (by dsimp only [bumpGen, writePayload]; omega),
              Or.inr (by dsimp only [bumpGen, writePayload] at hfull; exact hfull)⟩
            intro a ha
            show writeBytes (writeBytes _ _ key) _ bs a = s.payload a
            dsimp only [bumpGen]
            rw [writeBytes_apply_lt _ _ _ _ (by omega),
              writeBytes_apply_lt _ _ _ _ (by omega)]
          | some nidx =>
            dsimp only at h
            exact absurd (Prod.mk.injEq _ _ _ _ ▸ h).1.symm he

lemma insert_record_ok_or_no_space (s : Seg) (key bs : List Nat) (t : Nat) :
    (insert_record s key bs t).1 = ShmError.OK ∨
    (insert_record s key bs t).1 = ShmError.NO_SPACE := by
  rcases h : insert_record s key bs t with ⟨e, s'⟩
  by_cases he : e = ShmError.OK
  · exact Or.inl he
  · exact Or.inr (insert_record_fail h he).1

lemma insert_record_nodes_full {s : Seg} (key bs : List Nat) (t : Nat)
    (hfull : s.hdr.n_nodes ≤ s.hdr.next_free_node_index) :
    (insert_record s key bs t).1 = ShmError.NO_SPACE := by
  rcases h : insert_record s key bs t with ⟨e, s'⟩
  by_cases he : e = ShmError.OK
  · subst he
    have := (insert_record_ok h).2.2.2.2.1
    omega
  · exact (insert_record_fail h he).1

lemma insert_record_zero_len {s : Seg} {key bs : List Nat} (t : Nat)
    (h0 : key.length = 0 ∨ bs.length = 0) :
    (insert_record s key bs t).1 = ShmError.NO_SPACE := by
  rcases h : insert_record s key bs t with ⟨e, s'⟩
  by_cases he : e = ShmError.OK
  · subst he
    obtain ⟨hk, -, hv, -⟩ := insert_record_ok h
    omega
  · exact (insert_record_fail h he).1

lemma insertSorted_length (le : α → α → Bool) (x : α) (l : List α) :
    (insertSorted le x l).length = l.length + 1 := by
  induction l with
  | nil => rfl
  | cons y ys ih =>
    unfold insertSorted
    split
    · rfl
    · simpa using ih

lemma sortBy_length (le : α → α → Bool) (l : List α) :
    (sortBy le l).length = l.length := by
  induction l with
  | nil => rfl
  | cons x xs ih =>
    unfold sortBy
    rw [insertSorted_length, ih]
    rfl

lemma findFrom_empty (s : Seg) (key : List Nat) :
    ∀ f, findFrom s key f EMPTY_INDEX = none
  | 0 => rfl
  | f + 1 => by
    unfold findFrom
    rw [if_pos rfl]

lemma findFrom_fuel_stable {s : Seg} (key : List Nat) {idx : Nat} (hc : ChainOK s idx)
    (hnn : s.hdr.n_nodes ≤ EMPTY_INDEX) :
    ∀ f1 f2, chainMeasure idx ≤ f1 → chainMeasure idx ≤ f2 →
      findFrom s key f1 idx = findFrom s key f2 idx := by
  induction hc with
  | nil =>
    intro f1 f2 _ _
    rw [findFrom_empty, findFrom_empty]
  | cons idx h1 h2 h3 hc ih =>
    intro f1 f2 hf1 hf2
    have hne : idx ≠ EMPTY_INDEX := by omega
    rw [chainMeasure, if_neg hne] at hf1 hf2
    obtain ⟨a, rfl⟩ : ∃ a, f1 = a + 1 := ⟨f1 - 1, by omega⟩
    obtain ⟨b, rfl⟩ : ∃ b, f2 = b + 1 := ⟨f2 - 1, by omega⟩
    unfold findFrom
    rw [if_neg hne, if_neg hne]
    dsimp only
    split
    · rfl
    · apply ih <;> unfold chainMeasure <;> split <;> rcases h3 with h3 | h3 <;> omega

lemma findFrom_congr {s s' : Seg} (key : List Nat) {idx : Nat} (hc : ChainOK s idx)
    (hnn : s.hdr.n_nodes ≤ EMPTY_INDEX)
    (hnodes : ∀ j, j < s.hdr.n_nodes → j < s.hdr.next_free_node_index →
      s'.nodes j = s.nodes j)
    (hpay : ∀ a, a < s.hdr.payload_alloc_off → s'.payload a = s.payload a)
    (hreg : ∀ j, j < s.hdr.n_nodes → j < s.hdr.next_free_node_index →
      (s.nodes j).key_off + (s.nodes j).key_len ≤ s.hdr.payload_alloc_off) :
    ∀ f, findFrom s' key f idx = findFrom s key f idx := by
  induction hc with
  | nil =>
    intro f
    rw [findFrom_empty, findFrom_empty]
  | cons idx h1 h2 h3 hc ih =>
    intro f
    cases f with
    | zero => rfl
    | succ a =>
      have hne : idx ≠ EMPTY_INDEX := by omega
      unfold findFrom
      rw [if_neg hne, if_neg hne]
      dsimp only
      rw [hnodes idx h1 h2]
      have hkey : readBytes s'.payload (s.nodes idx).key_off (s.nodes idx).key_len
          = readBytes s.payload (s.nodes idx).key_off (s.nodes idx).key_len := by
        apply readBytes_congr
        intro x hx1 hx2
        exact hpay x (by have := hreg idx h1 h2; omega)
      rw [hkey]
      split
      · rfl
      · exact ih a

lemma findFrom_mem {s : Seg} (key : List Nat) {idx : Nat} (hc : ChainOK s idx) :
    ∀ f j, findFrom s key f idx = some j →
      j < s.hdr.n_nodes ∧ j < s.hdr.next_free_node_index := by
  induction hc with
  | nil =>
    intro f j h
    rw [findFrom_empty] at h
    exact absurd h (by simp)
  | cons idx h1 h2 h3 hc ih =>
    intro f j h
    cases f with
    | zero => exact absurd h (by simp [findFrom])
    | succ a =>
      unfold findFrom at h
      split at h
      · exact absurd h (by simp)
      · dsimp only at h
        split at h
        · cases Option.some.inj h
          exact ⟨h1, h2⟩
        · exact ih a j h

lemma chainOK_mono {s s' : Seg} {idx : Nat} (hc : ChainOK s idx)
    (hnodes : ∀ j, j < s.hdr.n_nodes → j < s.hdr.next_free_node_index →
      s'.nodes j = s.nodes j)
    (hnn : s.hdr.n_nodes ≤ s'.hdr.n_nodes)
    (hnf : s.hdr.next_free_node_index ≤ s'.hdr.next_free_node_index) :
    ChainOK s' idx := by
  induction hc with
  | nil => exact ChainOK.nil
  | cons idx h1 h2 h3 hc ih =>
    refine ChainOK.cons idx (by omega) (by omega) ?_ ?_
    · rw [hnodes idx h1 h2]
      exact h3
    · rw [hnodes idx h1 h2]
      exact ih

lemma bucketOf_congr {s s' : Seg} (key : List Nat)
    (h : s'.hdr.n_buckets = s.hdr.n_buckets) : bucketOf s' key = bucketOf s key := by
  unfold bucketOf
  rw [h]

lemma bucketOf_lt {s : Seg} (key : List Nat) (h1 : 0 < s.hdr.n_buckets)
    (h2 : s.hdr.n_buckets < 2 ^ 32) : bucketOf s key < s.hdr.n_buckets := by
  unfold bucketOf u32
  have hm := Nat.mod_lt (simple_hash key) h1
  rw [Nat.mod_eq_of_lt (by omega)]
  exact hm

lemma good_init {nB nN cap : Nat} (h1 : 0 < nB) (h2 : nB < 2 ^ 32)
    (h3 : nN < 2 ^ 32) (h4 : cap < 2 ^ 32) : Good (initSeg nB nN cap) := by
  refine ⟨h1, h2, h3, h4, Nat.zero_le _, ?_, ?_⟩
  · intro b hb
    show ChainOK _ (if b < nB then EMPTY_INDEX else 0)
    rw [if_pos (show b < nB from hb)]
    exact ChainOK.nil
  · intro i _ hi
    exact absurd hi (by simp [initSeg])

lemma findRead_init {nB nN cap : Nat} (key : List Nat) (h1 : 0 < nB)
    (h2 : nB < 2 ^ 32) : findRead (initSeg nB nN cap) key = none := by
  unfold findRead find_node_by_key
  have hb : bucketOf (initSeg nB nN cap) key < nB :=
    bucketOf_lt key h1 h2
  show Option.map _ (findFrom _ _ _ (if _ < nB then EMPTY_INDEX else 0)) = none
  rw [if_pos hb, findFrom_empty]
  rfl

lemma logFind_cons_self (k v : List Nat) (t : Nat)
    (log : List (List Nat × List Nat × Nat)) :
    logFind ((k, v, t) :: log) k = some (v, t) := by
  simp [logFind]

lemma logFind_cons_ne {k k0 : List Nat} (v : List Nat) (t : Nat)
    (log : List (List Nat × List Nat × Nat)) (hne : k ≠ k0) :
    logFind ((k0, v, t) :: log) k = logFind log k := by
  simp [logFind, List.find?_cons_of_neg, Ne.symm hne]

lemma shm_lookup_seq_eq (s : Seg) (key : List Nat) :
    shm_lookup_seq s key =
      match findRead s key with
      | some (v, _) => (ShmError.OK, some v)
      | none => (ShmError.NOT_FOUND, none) := by
  unfold shm_lookup_seq shm_lookup_obs findRead
  rcases find_node_by_key s key with - | idx <;> simp

lemma shm_get_value_type_seq_eq (s : Seg) (key : List Nat) :
    shm_get_value_type_seq s key =
      match findRead s key with
      | some (_, t) => (ShmError.OK, some t)
      | none => (ShmError.NOT_FOUND, none) := by
  unfold shm_get_value_type_seq shm_get_value_type_obs findRead
  rcases find_node_by_key s key with - | idx <;> simp

lemma chainOK_head_bound {s : Seg} {idx : Nat} (h : ChainOK s idx) :
    idx = EMPTY_INDEX ∨ (idx < s.hdr.n_nodes ∧ idx < s.hdr.next_free_node_index) := by
  cases h with
  | nil => exact Or.inl rfl
  | cons idx h1 h2 _ _ => exact Or.inr ⟨h1, h2⟩

lemma findFrom_succ (s : Seg) (key : List Nat) (f idx : Nat) :
    findFrom s key (f + 1) idx =
      if idx = EMPTY_INDEX then none
      else if (s.nodes idx).flags % 2 = 1 ∧ (s.nodes idx).key_len = key.length ∧
          readBytes s.payload (s.nodes idx).key_off (s.nodes idx).key_len = key
        then some idx
        else findFrom s key f (s.nodes idx).next_index := rfl

lemma insert_record_old_nodes {s : Seg} {key bs : List Nat} {t : Nat} {s' : Seg}
    (h : insert_record s key bs t = (ShmError.OK, s')) :
    ∀ j, j < s.hdr.n_nodes → j < s.hdr.next_free_node_index → s'.nodes j = s.nodes j := by
  obtain ⟨-, -, -, -, -, -, -, -, -, -, -, -, -, hnds, -⟩ := insert_record_ok h
  intro j hj hjf
  rw [hnds j, if_neg (by omega)]

lemma insert_record_old_payload {s : Seg} {key bs : List Nat} {t : Nat} {s' : Seg}
    (h : insert_record s key bs t = (ShmError.OK, s')) :
    ∀ a, a < s.hdr.payload_alloc_off → s'.payload a = s.payload a := by
  obtain ⟨-, -, -, -, -, -, -, -, -, -, -, -, -, -, hpay⟩ := insert_record_ok h
  intro a ha
  rw [hpay]
  have h8 := le_align_up8 key.length
  rw [writeBytes_apply_lt _ _ _ _ (by omega), writeBytes_apply_lt _ _ _ _ ha]

lemma map_read_congr {s s' : Seg} (k' : List Nat) {head : Nat} (hc : ChainOK s head)
    (hg : Good s)
    (hnodes : ∀ j, j < s.hdr.n_nodes → j < s.hdr.next_free_node_index →
      s'.nodes j = s.nodes j)
    (hpay : ∀ a, a < s.hdr.payload_alloc_off → s'.payload a = s.payload a)
    (f : Nat) :
    ((findFrom s k' f head).map (fun i =>
        (readBytes s'.payload (s'.nodes i).val_off (s'.nodes i).val_len,
          (s'.nodes i).value_type))) =
    ((findFrom s k' f head).map (fun i =>
        (readBytes s.payload (s.nodes i).val_off (s.nodes i).val_len,
          (s.nodes i).value_type))) := by
  rcases hj : findFrom s k' f head with - | j
  · rfl
  · obtain ⟨hjn, hjf⟩ := findFrom_mem k' hc f j hj
    simp only [Option.map_some']
    rw [hnodes j hjn hjf]
    have hb := (hg.regions j hjn hjf).2
    have hr : readBytes s'.payload (s.nodes j).val_off (s.nodes j).val_len =
        readBytes s.payload (s.nodes j).val_off (s.nodes j).val_len :=
      readBytes_congr _ _ _ _ (fun a ha1 ha2 => hpay a (by omega))
    rw [hr]

/-- Good is preserved by `insert_record`, success or failure. -/
lemma insert_record_good {s : Seg} (key bs : List Nat) (t : Nat) (hg : Good s) :
    Good (insert_record s key bs t).2 := by
  rcases h : insert_record s key bs t with ⟨e, s'⟩
  dsimp only
  by_cases he : e = ShmError.OK
  · subst he
    obtain ⟨hk0, hkM, hv0, hvM, hlt, hcap, hnb, hnn, hcapeq, hnf, hpao, hgen, hbks, hnds,
      hpay⟩ := insert_record_ok h
    have hold := insert_record_old_nodes h
    have h8k := le_align_up8 key.length
    have h8v := le_align_up8 bs.length
    have hcapb := hg.cap_lt
    have hcurs := hg.cursor_le
    refine ⟨hnb ▸ hg.nb_pos, hnb ▸ hg.nb_lt, hnn ▸ hg.nn_lt, hcapeq ▸ hg.cap_lt,
      by omega, ?_, ?_⟩
    · intro b hb
      rw [hbks b]
      by_cases hbb : b = bucketOf s key
      · rw [if_pos hbb]
        have hchain := hg.chains (bucketOf s key) (bucketOf_lt key hg.nb_pos hg.nb_lt)
        have hnode := hnds s.hdr.next_free_node_index
        rw [if_pos rfl] at hnode
        refine ChainOK.cons _ (by omega) (by omega) ?_ ?_
        · rw [hnode]
          rcases chainOK_head_bound hchain with hE | ⟨-, hlt2⟩
          · exact Or.inl hE
          · exact Or.inr hlt2
        · rw [hnode]
          exact chainOK_mono hchain hold (by omega) (by omega)
      · rw [if_neg hbb]
        exact chainOK_mono (hg.chains b (hnb ▸ hb)) hold (by omega) (by omega)
    · intro i hi hif
      rw [hnds i]
      by_cases hji : i = s.hdr.next_free_node_index
      · rw [if_pos hji]
        have hu1 : u32 s.hdr.payload_alloc_off = s.hdr.payload_alloc_off :=
          Nat.mod_eq_of_lt (by omega)
        have hu2 : u32 key.length = key.length :=
          Nat.mod_eq_of_lt (by unfold MAX_VAL_LEN at hkM; omega)
        have hu3 : u32 (s.hdr.payload_alloc_off + align_up key.length 8) =
            s.hdr.payload_alloc_off + align_up key.length 8 :=
          Nat.mod_eq_of_lt (by omega)
        have hu4 : u32 bs.length = bs.length :=
          Nat.mod_eq_of_lt (by unfold MAX_VAL_LEN at hvM; omega)
        show u32 s.hdr.payload_alloc_off + u32 key.length ≤ _ ∧
          u32 (s.hdr.payload_alloc_off + align_up key.length 8) + u32 bs.length ≤ _
        rw [hu1, hu2, hu3, hu4, hpao]
        omega
      · rw [if_neg hji]
        have hreg := hg.regions i (by omega) (by omega)
        omega
  · obtain ⟨-, hbks, hnds, hpay, hnb, hnn, hcapeq, hnf, hpao, hcapor, hnfor⟩ :=
      insert_record_fail h he
    refine ⟨hnb ▸ hg.nb_pos, hnb ▸ hg.nb_lt, hnn ▸ hg.nn_lt, hcapeq ▸ hg.cap_lt, ?_, ?_, ?_⟩
    · rw [hcapeq]
      rcases hcapor with hEq | hLe
      · rw [hEq]
        exact hg.cursor_le
      · exact hLe
    · intro b hb
      rw [hbks b]
      exact chainOK_mono (hg.chains b (hnb ▸ hb)) (fun j _ _ => hnds j) (by omega) (by omega)
    · intro i hi hif
      rw [hnds i]
      have hireg : i < s.hdr.next_free_node_index := by
        rcases hnfor with hEq | hFull <;> omega
      have hreg := hg.regions i (by omega) hireg
      omega

/-- After a successful `insert_record` of `(key, bs, t)` the reader finds
the freshly inserted record under `key`. -/
lemma findRead_insert_self {s : Seg} {key bs : List Nat} {t : Nat} {s' : Seg}
    (hg : Good s) (h : insert_record s key bs t = (ShmError.OK, s')) :
    findRead s' key = some (bs, t) := by
  obtain ⟨hk0, hkM, hv0, hvM, hlt, hcap, hnb, hnn, hcapeq, hnf, hpao, hgen, hbks, hnds,
    hpay⟩ := insert_record_ok h
  have hcapb := hg.cap_lt
  have hcurs := hg.cursor_le
  have h8k := le_align_up8 key.length
  have hnode := hnds s.hdr.next_free_node_index
  rw [if_pos rfl] at hnode
  have hu1 : u32 s.hdr.payload_alloc_off = s.hdr.payload_alloc_off :=
    Nat.mod_eq_of_lt (by omega)
  have hu2 : u32 key.length = key.length :=
    Nat.mod_eq_of_lt (by unfold MAX_VAL_LEN at hkM; omega)
  have hu3 : u32 (s.hdr.payload_alloc_off + align_up key.length 8) =
      s.hdr.payload_alloc_off + align_up key.length 8 :=
    Nat.mod_eq_of_lt (by omega)
  have hu4 : u32 bs.length = bs.length :=
    Nat.mod_eq_of_lt (by unfold MAX_VAL_LEN at hvM; omega)
  have hkeyread : readBytes s'.payload (u32 s.hdr.payload_alloc_off) (u32 key.length) = key := by
    rw [hpay, hu1, hu2]
    rw [readBytes_writeBytes_below _ _ _ _ _ (by omega)]
    exact readBytes_writeBytes_self _ _ _
  have hvalread : readBytes s'.payload
      (u32 (s.hdr.payload_alloc_off + align_up key.length 8)) (u32 bs.length) = bs := by
    rw [hpay, hu3, hu4]
    exact readBytes_writeBytes_self _ _ _
  have hne : s.hdr.next_free_node_index ≠ EMPTY_INDEX := by
    have := hg.nn_lt
    unfold EMPTY_INDEX
    omega
  unfold findRead find_node_by_key
  rw [bucketOf_congr key hnb, hbks (bucketOf s key), if_pos rfl, hnn, findFrom_succ,
    if_neg hne, hnode]
  rw [if_pos ⟨rfl, by rw [hu2], by rw [hkeyread]⟩]
  simp only [Option.map_some']
  rw [hnode]
  rw [hvalread]

/-- A successful `insert_record` of `key` leaves the lookup result of every
other key unchanged. -/
lemma findRead_insert_other {s : Seg} {key bs : List Nat} {t : Nat} {s' : Seg}
    (hg : Good s) (h : insert_record s key bs t = (ShmError.OK, s'))
    {k' : List Nat} (hk : k' ≠ key) :
    findRead s' k' = findRead s k' := by
  obtain ⟨hk0, hkM, hv0, hvM, hlt, hcap, hnb, hnn, hcapeq, hnf, hpao, hgen, hbks, hnds,
    hpay⟩ := insert_record_ok h
  have hcapb := hg.cap_lt
  have hcurs := hg.cursor_le
  have h8k := le_align_up8 key.length
  have hold := insert_record_old_nodes h
  have holdp := insert_record_old_payload h
  have hnnE : s.hdr.n_nodes ≤ EMPTY_INDEX := by
    have := hg.nn_lt
    unfold EMPTY_INDEX
    omega
  have hregk : ∀ j, j < s.hdr.n_nodes → j < s.hdr.next_free_node_index →
      (s.nodes j).key_off + (s.nodes j).key_len ≤ s.hdr.payload_alloc_off :=
    fun j hj hjf => (hg.regions j hj hjf).1
  have hnode := hnds s.hdr.next_free_node_index
  rw [if_pos rfl] at hnode
  have hu1 : u32 s.hdr.payload_alloc_off = s.hdr.payload_alloc_off :=
    Nat.mod_eq_of_lt (by omega)
  have hu2 : u32 key.length = key.length :=
    Nat.mod_eq_of_lt (by unfold MAX_VAL_LEN at hkM; omega)
  have hkeyread : readBytes s'.payload (u32 s.hdr.payload_alloc_off) (u32 key.length) = key := by
    rw [hpay, hu1, hu2]
    rw [readBytes_writeBytes_below _ _ _ _ _ (by omega)]
    exact readBytes_writeBytes_self _ _ _
  unfold findRead find_node_by_key
  rw [bucketOf_congr k' hnb, hbks (bucketOf s k'), hnn]
  by_cases hbb : bucketOf s k' = bucketOf s key
  · rw [if_pos hbb]
    have hne : s.hdr.next_free_node_index ≠ EMPTY_INDEX := by
      have := hg.nn_lt
      unfold EMPTY_INDEX
      omega
    rw [findFrom_succ, if_neg hne, hnode]
    have hcond : ¬ (((1 : Nat) % 2 = 1) ∧ u32 key.length = k'.length ∧
        readBytes s'.payload (u32 s.hdr.payload_alloc_off) (u32 key.length) = k') := by
      rintro ⟨-, -, hread⟩
      rw [hkeyread] at hread
      exact hk hread.symm
    rw [if_neg hcond]
    show ((findFrom s' k' s.hdr.n_nodes (s.buckets (bucketOf s key))).map _) = _
    rw [← hbb]
    have hchain := hg.chains (bucketOf s k') (bucketOf_lt k' hg.nb_pos hg.nb_lt)
    rw [findFrom_congr k' hchain hnnE hold holdp hregk]
    have hstable := findFrom_fuel_stable k' hchain hnnE s.hdr.n_nodes (s.hdr.n_nodes + 1)
      ?_ ?_
    · rw [hstable]
      exact map_read_congr k' hchain hg hold holdp _
    · rcases chainOK_head_bound hchain with hE | ⟨hlt2, -⟩ <;>
        unfold chainMeasure <;> split <;> omega
    · rcases chainOK_head_bound hchain with hE | ⟨hlt2, -⟩ <;>
        unfold chainMeasure <;> split <;> omega
  · rw [if_neg hbb]
    have hchain := hg.chains (bucketOf s k') (bucketOf_lt k' hg.nb_pos hg.nb_lt)
    rw [findFrom_congr k' hchain hnnE hold holdp hregk]
    exact map_read_congr k' hchain hg hold holdp _

/-- A failed `insert_record` leaves the lookup result of every key
unchanged. -/
lemma findRead_insert_fail {s : Seg} {key bs : List Nat} {t : Nat} {e : ShmError} {s' : Seg}
    (hg : Good s) (h : insert_record s key bs t = (e, s')) (he : e ≠ ShmError.OK) :
    ∀ k', findRead s' k' = findRead s k' := by
  obtain ⟨-, hbks, hnds, hpay, hnb, hnn, hcapeq, hnf, hpao, hcapor, hnfor⟩ :=
    insert_record_fail h he
  intro k'
  have hnnE : s.hdr.n_nodes ≤ EMPTY_INDEX := by
    have := hg.nn_lt
    unfold EMPTY_INDEX
    omega
  have hchain := hg.chains (bucketOf s k') (bucketOf_lt k' hg.nb_pos hg.nb_lt)
  unfold findRead find_node_by_key
  rw [bucketOf_congr k' hnb, hbks (bucketOf s k'), hnn]
  rw [findFrom_congr k' hchain hnnE (fun j _ _ => hnds j) hpay
    (fun j hj hjf => (hg.regions j hj hjf).1)]
  exact map_read_congr k' hchain hg (fun j _ _ => hnds j) hpay _

/-- One `insert_record` preserves the simulation between the segment and
the history log. -/
lemma insert_record_sim {s : Seg} {log : List (List Nat × List Nat × Nat)}
    (key ENC : List Nat) (TAG : Nat) (hg : Good s)
    (hsim : ∀ k, findRead s k = logFind log k) :
    Good (insert_record s key ENC TAG).2 ∧
    ∀ k, findRead (insert_record s key ENC TAG).2 k =
      logFind ((if (insert_record s key ENC TAG).1 = ShmError.OK
                then [(key, ENC, TAG)] else []) ++ log) k := by
  refine ⟨insert_record_good key ENC TAG hg, ?_⟩
  intro k
  rcases h : insert_record s key ENC TAG with ⟨e, s2⟩
  dsimp only
  by_cases he : e = ShmError.OK
  · subst he
    rw [if_pos rfl]
    by_cases hk : k = key
    · rw [hk, findRead_insert_self hg h]
      show some (ENC, TAG) = logFind ((key, ENC, TAG) :: log) key
      rw [logFind_cons_self]
    · rw [findRead_insert_other hg h hk, hsim k]
      show logFind log k = logFind ((key, ENC, TAG) :: log) k
      rw [logFind_cons_ne _ _ _ hk]
  · rw [if_neg he, findRead_insert_fail hg h he k, hsim k, List.nil_append]

/-- Unfolding of `runH` on one operation, with the appended log entry in
if-and-toList form. -/
lemma runH_cons (s : Seg) (op : Op) (ops : List Op) :
    runH s (op :: ops) =
      ((runH (applyOp s op).2 ops).1,
        (runH (applyOp s op).2 ops).2 ++
          (if (applyOp s op).1 = ShmError.OK then (opRecord op).toList else [])) := by
  conv_lhs => rw [runH]
  congr 1
  rcases hop : opRecord op with - | r <;> cases he : (applyOp s op).1 <;> rfl

lemma applyOp_ins (s : Seg) (k0 v0 : List Nat) :
    applyOp s (Op.ins k0 v0) = insert_record s k0 v0 SHM_TYPE_UNKNOWN := rfl

lemma applyOp_insInt (s : Seg) (k0 : List Nat) (v0 : Int) :
    applyOp s (Op.insInt k0 v0) =
      insert_record s k0 (i64ToBytes v0) SHM_TYPE_INT_SCALAR := rfl

lemma applyOp_insIntSet (s : Seg) (k0 : List Nat) (vs : List Int) :
    applyOp s (Op.insIntSet k0 vs) =
      insert_record s k0 (encode_int_set (sorted_unique vs)) SHM_TYPE_INT_SET := rfl

lemma applyOp_insDict (s : Seg) (k0 : List Nat) (ps : List KVPairInt) :
    applyOp s (Op.insDict k0 ps) =
      insert_record s k0 (encode_dict_str_int (sortBy (fun a b => ! kvpair_lt b a) ps))
        SHM_TYPE_DICT_STR_INT := rfl

/-- One API operation preserves the simulation. -/
lemma applyOp_sim {s : Seg} {log : List (List Nat × List Nat × Nat)} (op : Op)
    (hg : Good s) (hsim : ∀ k, findRead s k = logFind log k) :
    Good (applyOp s op).2 ∧
    ∀ k, findRead (applyOp s op).2 k =
      logFind ((if (applyOp s op).1 = ShmError.OK then (opRecord op).toList else []) ++
        log) k := by
  cases op with
  | lookup k0 =>
    refine ⟨hg, fun k => ?_⟩
    show findRead s k = logFind ((if (shm_lookup_seq s k0).1 = ShmError.OK
      then ([] : List (List Nat × List Nat × Nat)) else []) ++ log) k
    rw [ite_self, List.nil_append]
    exact hsim k
  | ins k0 v0 =>
    rw [applyOp_ins]
    show _ ∧ ∀ k, _ =
      logFind ((if _ = ShmError.OK then [(k0, v0, SHM_TYPE_UNKNOWN)] else []) ++ log) k
    exact insert_record_sim k0 v0 SHM_TYPE_UNKNOWN hg hsim
  | insInt k0 v0 =>
    rw [applyOp_insInt]
    show _ ∧ ∀ k, _ = logFind
      ((if _ = ShmError.OK then [(k0, i64ToBytes v0, SHM_TYPE_INT_SCALAR)] else []) ++
        log) k
    exact insert_record_sim k0 (i64ToBytes v0) SHM_TYPE_INT_SCALAR hg hsim
  | insIntSet k0 vs =>
    rw [applyOp_insIntSet]
    show _ ∧ ∀ k, _ = logFind
      ((if _ = ShmError.OK
        then [(k0, encode_int_set (sorted_unique vs), SHM_TYPE_INT_SET)] else []) ++
        log) k
    exact insert_record_sim k0 (encode_int_set (sorted_unique vs))
      SHM_TYPE_INT_SET hg hsim
  | insDict k0 ps =>
    rw [applyOp_insDict]
    show _ ∧ ∀ k, _ = logFind
      ((if _ = ShmError.OK
        then [(k0, encode_dict_str_int (sortBy (fun a b => ! kvpair_lt b a) ps),
          SHM_TYPE_DICT_STR_INT)] else []) ++ log) k
    exact insert_record_sim k0
      (encode_dict_str_int (sortBy (fun a b => ! kvpair_lt b a) ps))
      SHM_TYPE_DICT_STR_INT hg hsim
  | insObject k0 fs =>
    show Good (shm_insert_object s k0 fs).2 ∧
      ∀ k, findRead (shm_insert_object s k0 fs).2 k =
        logFind ((if (shm_insert_object s k0 fs).1 = ShmError.OK
          then [(k0, encode_object (sortBy (fun a b => ! bytes_less b.name a.name) fs),
            SHM_TYPE_OBJECT)] else []) ++ log) k
    by_cases hd : adjacent_dup (sortBy (fun a b => ! bytes_less b.name a.name) fs)
    · have happ : shm_insert_object s k0 fs = (ShmError.INVALID_PARAM, s) := by
        unfold shm_insert_object
        rw [if_pos hd]
      rw [happ]
      refine ⟨hg, fun k => ?_⟩
      rw [if_neg (by simp), List.nil_append]
      exact hsim k
    · have happ : shm_insert_object s k0 fs =
          insert_record s k0
            (encode_object (sortBy (fun a b => ! bytes_less b.name a.name) fs))
            SHM_TYPE_OBJECT := by
        unfold shm_insert_object
        rw [if_neg hd]
      rw [happ]
      exact insert_record_sim k0
        (encode_object (sortBy (fun a b => ! bytes_less b.name a.name) fs))
        SHM_TYPE_OBJECT hg hsim

/-- Running a sequential history preserves the simulation: the segment's
lookup content is exactly the most-recent-first log of successful
inserts. -/
lemma runH_sim (ops : List Op) :
    ∀ (s : Seg) (log : List (List Nat × List Nat × Nat)),
    Good s → (∀ k, findRead s k = logFind log k) →
    Good (runH s ops).1 ∧
    ∀ k, findRead (runH s ops).1 k = logFind ((runH s ops).2 ++ log) k := by
  induction ops with
  | nil =>
    intro s log hg hsim
    exact ⟨hg, fun k => by simpa using hsim k⟩
  | cons op ops ih =>
    intro s log hg hsim
    have hstep := applyOp_sim op hg hsim
    have hrec := ih (applyOp s op).2 _ hstep.1 hstep.2
    rw [runH_cons]
    refine ⟨hrec.1, fun k => ?_⟩
    have := hrec.2 k
    rwa [← List.append_assoc] at this

lemma good_runH (nB nN cap : Nat) (ops : List Op)
    (h1 : 0 < nB) (h2 : nB < 2 ^ 32) (h3 : nN < 2 ^ 32) (h4 : cap < 2 ^ 32) :
    Good (runH (initSeg nB nN cap) ops).1 ∧
    ∀ k, findRead (runH (initSeg nB nN cap) ops).1 k =
      logFind (runH (initSeg nB nN cap) ops).2 k := by
  have h := runH_sim ops (initSeg nB nN cap) [] (good_init h1 h2 h3 h4)
    (fun k => by rw [findRead_init k h1 h2]; rfl)
  exact ⟨h.1, fun k => by have := h.2 k; rwa [List.append_nil] at this⟩

/-
Claim C2 (node/payload cursors and bucket heads after a failed insert).
-/

/-- Claim C2, counterexample: on a fresh segment with an 8-byte payload
area, `shm_insert` with a 1-byte key and 1-byte value fails with `NO_SPACE`
(the key allocation succeeds, the value allocation fails), yet the payload
cursor has advanced from 0 to 8, contradicting the claim that a failed
insert leaves the payload cursor unchanged from its value after the
previous successful insert (here: its initial value). -/
theorem c2_counterexample :
    (shm_insert (initSeg 1 1 8) [1] [2]).1 = ShmError.NO_SPACE ∧
    (initSeg 1 1 8).hdr.payload_alloc_off = 0 ∧
    (shm_insert (initSeg 1 1 8) [1] [2]).2.hdr.payload_alloc_off = 8 := by
  decide

/-- Claim C2, amended: for every insert that fails (any key, value encoding
and type tag, hence the generic and every typed insert), all bucket heads
are unchanged; the node cursor and the payload cursor may have advanced. -/
theorem c2_failed_insert_preserves_bucket_heads (s : Seg) (key bs : List Nat) (t : Nat)
    (he : (insert_record s key bs t).1 ≠ ShmError.OK) :
    ∀ b, (insert_record s key bs t).2.buckets b = s.buckets b := by
  rcases h : insert_record s key bs t with ⟨e, s'⟩
  rw [h] at he
  exact (insert_record_fail h he).2.1

/-- Witness for `c2_failed_insert_preserves_bucket_heads` at the concrete
failing insert of `c2_counterexample`. -/
theorem c2_witness :
    (insert_record (initSeg 1 1 8) [1] [2] SHM_TYPE_UNKNOWN).2.buckets 0 =
      (initSeg 1 1 8).buckets 0 :=
  c2_failed_insert_preserves_bucket_heads (initSeg 1 1 8) [1] [2] SHM_TYPE_UNKNOWN
    (by decide) 0

/-
Claim C3 (node cursor bound and no-space behavior).
-/

/-- Claim C3, counterexample: the state reached from a fresh segment with
`N = 1` node by two generic inserts has `next_free_node_index = 2 > N = 1`
(the second insert's `alloc_node_index` fetch-add advances the cursor past
`N` before failing), contradicting `next_free_node_index ≤ N` as a
reachable-state invariant. -/
theorem c3_counterexample :
    (runH (initSeg 1 1 64) [Op.ins [1] [2], Op.ins [3] [4]]).1.hdr.n_nodes = 1 ∧
    (runH (initSeg 1 1 64) [Op.ins [1] [2],
       Op.ins [3] [4]]).1.hdr.next_free_node_index = 2 := by
  decide

/-- Claim C3, amended: the node cursor can exceed `N` (each insert attempted
with the node area exhausted pushes it one further), and once
`next_free_node_index ≥ N` every further `shm_insert` fails with
`NO_SPACE`. -/
theorem c3_insert_no_space_once_nodes_exhausted (s : Seg) (key value : List Nat)
    (hfull : s.hdr.n_nodes ≤ s.hdr.next_free_node_index) :
    (shm_insert s key value).1 = ShmError.NO_SPACE :=
  insert_record_nodes_full key value SHM_TYPE_UNKNOWN hfull

/-- Witness for `c3_insert_no_space_once_nodes_exhausted` on the reachable
state of `c3_counterexample`. -/
theorem c3_witness :
    (shm_insert (runH (initSeg 1 1 64) [Op.ins [1] [2], Op.ins [3] [4]]).1
      [5] [6]).1 = ShmError.NO_SPACE :=
  c3_insert_no_space_once_nodes_exhausted _ [5] [6] (by decide)

/-
Claim C4 (zero-length key or value).
-/

/-- Claim C4, counterexample: `shm_insert` with a zero-length key returns
`NO_SPACE` (the zero length makes `alloc_payload` fail, which `shm_insert`
maps to `NO_SPACE`), not `INVALID_PARAM` as claimed. -/
theorem c4_counterexample :
    (shm_insert (initSeg 1 1 64) [] [1]).1 = ShmError.NO_SPACE ∧
    (shm_insert (initSeg 1 1 64) [2] []).1 = ShmError.NO_SPACE ∧
    ShmError.NO_SPACE ≠ ShmError.INVALID_PARAM := by
  decide

/-- Claim C4, amended: every `shm_insert` with a zero-length key or a
zero-length value fails with `NO_SPACE` (not `INVALID_PARAM`), in every
state. -/
theorem c4_zero_length_insert_returns_no_space (s : Seg) (key value : List Nat)
    (h0 : key = [] ∨ value = []) :
    (shm_insert s key value).1 = ShmError.NO_SPACE := by
  apply insert_record_zero_len
  rcases h0 with h | h <;> simp [h]

/-- Witness for `c4_zero_length_insert_returns_no_space` at a concrete
zero-length key. -/
theorem c4_witness : (shm_insert (initSeg 1 1 64) [] [1]).1 = ShmError.NO_SPACE :=
  c4_zero_length_insert_returns_no_space (initSeg 1 1 64) [] [1] (Or.inl rfl)

/-
Claim C1 (sequential lookup returns the bytes most recently written).
-/

/-- Claim C1: for every crash-free sequential history of inserts and
lookups run from a fresh segment, a `shm_lookup` that returns `OK` for a
key returns bytes equal to the bytes written by the most recent successful
insert of that key (the head entry for that key in the history log). -/
theorem c1_lookup_returns_last_inserted_bytes
    (nB nN cap : Nat) (ops : List Op) (key v : List Nat)
    (h1 : 0 < nB) (h2 : nB < 2 ^ 32) (h3 : nN < 2 ^ 32) (h4 : cap < 2 ^ 32)
    (hlook : shm_lookup_seq (runH (initSeg nB nN cap) ops).1 key =
      (ShmError.OK, some v)) :
    ∃ t, logFind (runH (initSeg nB nN cap) ops).2 key = some (v, t) := by
  have hsim := (good_runH nB nN cap ops h1 h2 h3 h4).2 key
  rw [shm_lookup_seq_eq] at hlook
  rcases hfr : findRead (runH (initSeg nB nN cap) ops).1 key with - | ⟨v0, t0⟩
  · rw [hfr] at hlook
    simp at hlook
  · rw [hfr] at hlook
    simp only [Prod.mk.injEq, Option.some.injEq] at hlook
    exact ⟨t0, by rw [← hsim, hfr, hlook.2]⟩

/-- Witness for `c1_lookup_returns_last_inserted_bytes` on a one-insert
history. -/
theorem c1_witness :
    ∃ t, logFind (runH (initSeg 4 4 128) [Op.ins [1] [9, 9]]).2 [1] =
      some ([9, 9], t) :=
  c1_lookup_returns_last_inserted_bytes 4 4 128 [Op.ins [1] [9, 9]] [1] [9, 9]
    (by decide) (by decide) (by decide) (by decide) (by decide)

/-
Claim C9 (duplicate-key insert shadows the older record).
-/

/-- Claim C9: inserting a key whose bytes already exist in a reachable
store is not rejected (the result is `OK`, or `NO_SPACE` if an allocator
is exhausted); when it succeeds, the new node is installed at the bucket
head (the old node cursor value), a subsequent lookup returns the new
value and `shm_get_value_type` the new tag, and every other key's lookup
is unchanged — the older node for that key is no longer reachable by key
lookup. -/
theorem c9_duplicate_key_shadowing
    (nB nN cap : Nat) (ops : List Op) (s : Seg) (key value : List Nat)
    (h1 : 0 < nB) (h2 : nB < 2 ^ 32) (h3 : nN < 2 ^ 32) (h4 : cap < 2 ^ 32)
    (hs : s = (runH (initSeg nB nN cap) ops).1)
    (_hpresent : (findRead s key).isSome = true) :
    ((shm_insert s key value).1 = ShmError.OK ∨
     (shm_insert s key value).1 = ShmError.NO_SPACE) ∧
    ((shm_insert s key value).1 = ShmError.OK →
      (shm_insert s key value).2.buckets (bucketOf (shm_insert s key value).2 key) =
          s.hdr.next_free_node_index ∧
      shm_lookup_seq (shm_insert s key value).2 key = (ShmError.OK, some value) ∧
      shm_get_value_type_seq (shm_insert s key value).2 key =
          (ShmError.OK, some SHM_TYPE_UNKNOWN) ∧
      ∀ k', k' ≠ key → findRead (shm_insert s key value).2 k' = findRead s k') := by
  have hg : Good s := hs ▸ (good_runH nB nN cap ops h1 h2 h3 h4).1
  constructor
  · exact insert_record_ok_or_no_space s key value SHM_TYPE_UNKNOWN
  · intro hOK
    rcases h : shm_insert s key value with ⟨e, s2⟩
    rw [h] at hOK
    dsimp only at hOK
    subst hOK
    have h' : insert_record s key value SHM_TYPE_UNKNOWN = (ShmError.OK, s2) := h
    obtain ⟨-, -, -, -, -, -, hnb, -, -, -, -, -, hbks, -, -⟩ := insert_record_ok h'
    refine ⟨?_, ?_, ?_, ?_⟩
    · rw [bucketOf_congr key hnb, hbks (bucketOf s key), if_pos rfl]
    · rw [shm_lookup_seq_eq, findRead_insert_self hg h']
    · rw [shm_get_value_type_seq_eq, findRead_insert_self hg h']
    · exact fun k' hk' => findRead_insert_other hg h' hk'

/-- Witness for `c9_duplicate_key_shadowing`: re-inserting key `[1]` on a
one-insert history. -/
theorem c9_witness :
    (((shm_insert (runH (initSeg 4 4 128) [Op.ins [1] [7]]).1 [1] [8, 8]).1 =
        ShmError.OK ∨
      (shm_insert (runH (initSeg 4 4 128) [Op.ins [1] [7]]).1 [1] [8, 8]).1 =
        ShmError.NO_SPACE) ∧
     ((shm_insert (runH (initSeg 4 4 128) [Op.ins [1] [7]]).1 [1] [8, 8]).1 =
        ShmError.OK →
      (shm_insert (runH (initSeg 4 4 128) [Op.ins [1] [7]]).1 [1] [8, 8]).2.buckets
          (bucketOf (shm_insert (runH (initSeg 4 4 128) [Op.ins [1] [7]]).1
            [1] [8, 8]).2 [1]) =
        (runH (initSeg 4 4 128) [Op.ins [1] [7]]).1.hdr.next_free_node_index ∧
      shm_lookup_seq (shm_insert (runH (initSeg 4 4 128) [Op.ins [1] [7]]).1
          [1] [8, 8]).2 [1] = (ShmError.OK, some [8, 8]) ∧
      shm_get_value_type_seq (shm_insert (runH (initSeg 4 4 128)
          [Op.ins [1] [7]]).1 [1] [8, 8]).2 [1] =
        (ShmError.OK, some SHM_TYPE_UNKNOWN) ∧
      ∀ k', k' ≠ [1] →
        findRead (shm_insert (runH (initSeg 4 4 128) [Op.ins [1] [7]]).1
          [1] [8, 8]).2 k' =
        findRead (runH (initSeg 4 4 128) [Op.ins [1] [7]]).1 k')) :=
  c9_duplicate_key_shadowing 4 4 128 [Op.ins [1] [7]] _ [1] [8, 8]
    (by decide) (by decide) (by decide) (by decide) rfl (by decide)

/-
Claim C5 (dictionary insert with duplicate keys).
-/

/-- Claim C5, counterexample: `shm_insert_dict_str_int` with two identical
keys `"a"` returns `OK` (not `INVALID_PARAM`) and does store a record for
the outer key. -/
theorem c5_counterexample :
    (shm_insert_dict_str_int (initSeg 1 4 64) [107]
        [⟨[97], 1, 5⟩, ⟨[97], 1, 6⟩]).1 = ShmError.OK ∧
    ShmError.OK ≠ ShmError.INVALID_PARAM ∧
    (findRead (shm_insert_dict_str_int (initSeg 1 4 64) [107]
        [⟨[97], 1, 5⟩, ⟨[97], 1, 6⟩]).2 [107]).isSome = true := by
  decide

/-- Claim C5, amended: `shm_insert_dict_str_int` performs no duplicate-key
check: on any input (duplicate keys included) it returns `OK` or
`NO_SPACE`, never `INVALID_PARAM`; the sorted pair list it encodes keeps
all `count` input pairs; and on `OK` the encoded dictionary (with the
duplicates retained) is stored under the outer key. -/
theorem c5_duplicate_dict_keys_accepted
    (nB nN cap : Nat) (ops : List Op) (s : Seg) (key : List Nat)
    (pairs : List KVPairInt)
    (h1 : 0 < nB) (h2 : nB < 2 ^ 32) (h3 : nN < 2 ^ 32) (h4 : cap < 2 ^ 32)
    (hs : s = (runH (initSeg nB nN cap) ops).1) :
    ((shm_insert_dict_str_int s key pairs).1 = ShmError.OK ∨
     (shm_insert_dict_str_int s key pairs).1 = ShmError.NO_SPACE) ∧
    (sortBy (fun a b => ! kvpair_lt b a) pairs).length = pairs.length ∧
    ((shm_insert_dict_str_int s key pairs).1 = ShmError.OK →
      findRead (shm_insert_dict_str_int s key pairs).2 key =
        some (encode_dict_str_int (sortBy (fun a b => ! kvpair_lt b a) pairs),
          SHM_TYPE_DICT_STR_INT)) := by
  have hg : Good s := hs ▸ (good_runH nB nN cap ops h1 h2 h3 h4).1
  refine ⟨insert_record_ok_or_no_space s key _ _, sortBy_length _ _, ?_⟩
  intro hOK
  rcases h : shm_insert_dict_str_int s key pairs with ⟨e, s2⟩
  rw [h] at hOK
  dsimp only at hOK
  subst hOK
  exact findRead_insert_self hg h

/-- Witness for `c5_duplicate_dict_keys_accepted` at the duplicate-key
input of `c5_counterexample`. -/
theorem c5_witness :
    (((shm_insert_dict_str_int (initSeg 1 4 64) [107]
        [⟨[97], 1, 5⟩, ⟨[97], 1, 6⟩]).1 = ShmError.OK ∨
      (shm_insert_dict_str_int (initSeg 1 4 64) [107]
        [⟨[97], 1, 5⟩, ⟨[97], 1, 6⟩]).1 = ShmError.NO_SPACE) ∧
     (sortBy (fun a b => ! kvpair_lt b a)
        [(⟨[97], 1, 5⟩ : KVPairInt), ⟨[97], 1, 6⟩]).length = 2 ∧
     ((shm_insert_dict_str_int (initSeg 1 4 64) [107]
        [⟨[97], 1, 5⟩, ⟨[97], 1, 6⟩]).1 = ShmError.OK →
      findRead (shm_insert_dict_str_int (initSeg 1 4 64) [107]
          [⟨[97], 1, 5⟩, ⟨[97], 1, 6⟩]).2 [107] =
        some (encode_dict_str_int (sortBy (fun a b => ! kvpair_lt b a)
          [⟨[97], 1, 5⟩, ⟨[97], 1, 6⟩]), SHM_TYPE_DICT_STR_INT))) :=
  c5_duplicate_dict_keys_accepted 1 4 64 [] (initSeg 1 4 64) [107]
    [⟨[97], 1, 5⟩, ⟨[97], 1, 6⟩]
    (by decide) (by decide) (by decide) (by decide) rfl

/-
Claim C6 (second generation sample on a no-match chain walk).
-/

/-- Claim C6, counterexample: with the two generation loads observing
`g1 = 0 ≠ 1 = g2`, the typed lookup `shm_lookup_int_scalar` on a missing
key returns `NOT_FOUND`, not `CONCURRENT_MOD`: unlike the generic
`shm_lookup` it returns before any second generation sample. -/
theorem c6_counterexample :
    shm_lookup_int_scalar_obs (initSeg 1 1 64) 0 1 [1] = (ShmError.NOT_FOUND, none) ∧
    (0 : Nat) ≠ 1 ∧
    ShmError.NOT_FOUND ≠ ShmError.CONCURRENT_MOD := by
  decide

/-- Claim C6, amended: when the bucket-chain walk ends with no key match,
the generic `shm_lookup` does sample the generation a second time and
returns `CONCURRENT_MOD` if it changed and `NOT_FOUND` otherwise; but the
typed lookups (`shm_lookup_int_scalar`, `shm_get_value_type`,
`shm_lookup_int_set`, `shm_lookup_object`, and the other
`find_node_by_key`-based readers) return `NOT_FOUND` immediately, without a
second generation sample. -/
theorem c6_no_match_generation_check (s : Seg) (g1 g2 : Nat) (key : List Nat)
    (hmiss : find_node_by_key s key = none) :
    shm_lookup_obs s g1 g2 key =
      ((if g1 = g2 then ShmError.NOT_FOUND else ShmError.CONCURRENT_MOD), none) ∧
    shm_lookup_int_scalar_obs s g1 g2 key = (ShmError.NOT_FOUND, none) ∧
    shm_get_value_type_obs s g1 g2 key = (ShmError.NOT_FOUND, none) ∧
    shm_lookup_int_set_obs s g1 g2 key = (ShmError.NOT_FOUND, none) ∧
    shm_lookup_object_obs s g1 g2 key = (ShmError.NOT_FOUND, none) := by
  refine ⟨?_, ?_, ?_, ?_, ?_⟩
  · unfold shm_lookup_obs
    rw [hmiss]
    by_cases hg : g1 = g2 <;> simp [hg]
  · unfold shm_lookup_int_scalar_obs
    rw [hmiss]
  · unfold shm_get_value_type_obs
    rw [hmiss]
  · unfold shm_lookup_int_set_obs
    rw [hmiss]
  · unfold shm_lookup_object_obs
    rw [hmiss]

/-- Witness for `c6_no_match_generation_check` at a concrete segment and
`g1 = 0`, `g2 = 1`. -/
theorem c6_witness :
    shm_lookup_obs (initSeg 1 1 64) 0 1 [1] = (ShmError.CONCURRENT_MOD, none) ∧
    shm_lookup_int_scalar_obs (initSeg 1 1 64) 0 1 [1] = (ShmError.NOT_FOUND, none) := by
  have h := c6_no_match_generation_check (initSeg 1 1 64) 0 1 [1] (by decide)
  exact ⟨by simpa using h.1, h.2.1⟩

/-
Claim C10 (shm_lookup_decrypted ignores buffer_size).
-/

lemma shm_lookup_copy_seq_ok {s : Seg} {key temp : List Nat} {bsz : Nat} {l : Option Nat}
    (h : shm_lookup_copy_seq s key bsz = (ShmError.OK, some temp, l)) :
    shm_lookup_seq s key = (ShmError.OK, some temp) ∧ temp.length ≤ bsz := by
  unfold shm_lookup_copy_seq at h
  rcases hl : shm_lookup_seq s key with ⟨el, vl⟩
  rw [hl] at h
  cases el
  case OK =>
    cases vl with
    | none => simp at h
    | some v =>
      dsimp only at h
      split at h
      · simp at h
      · next hle =>
        simp only [Prod.mk.injEq, Option.some.injEq] at h
        obtain ⟨-, hv, -⟩ := h
        subst hv
        exact ⟨rfl, by omega⟩
  all_goals (dsimp only at h; simp at h)

/-- Claim C10: `shm_lookup_decrypted` ignores its `buffer_size` parameter —
its entire result (including the bytes written to `out_buffer`) is the same
for every `buffer_size`, so no bounds check limits what is written — and on
`OK` the bytes written are the decryption of everything after the stored
4-byte prefix while `*out_value_len` is set to the stored original-length
prefix itself, not to the number of bytes written. -/
theorem c10_lookup_decrypted_ignores_buffer_size :
    (∀ (aesDec : List Nat → Option (List Nat)) (s : Seg) (key : List Nat)
       (b1 b2 : Nat) (auth : Bool),
       shm_lookup_decrypted aesDec s key b1 auth =
         shm_lookup_decrypted aesDec s key b2 auth) ∧
    (∀ (aesDec : List Nat → Option (List Nat)) (s : Seg) (key : List Nat)
       (bsz : Nat) (auth : Bool) (w : List Nat) (n : Nat),
       shm_lookup_decrypted aesDec s key bsz auth = (ShmError.OK, some (w, n)) →
       ∃ v, shm_lookup_seq s key = (ShmError.OK, some v) ∧ 4 ≤ v.length ∧
         v.length ≤ TEMP_BUFFER_SIZE ∧ n = u32FromBytes (v.take 4) ∧
         aesDec (v.drop 4) = some w) := by
  constructor
  · intro aesDec s key b1 b2 auth
    rfl
  · intro aesDec s key bsz auth w n h
    unfold shm_lookup_decrypted at h
    split at h
    · simp at h
    · rcases hc : shm_lookup_copy_seq s key TEMP_BUFFER_SIZE with ⟨e, vOpt, lOpt⟩
      rw [hc] at h
      cases e
      case OK =>
        cases vOpt with
        | none => simp at h
        | some temp =>
          dsimp only at h
          split at h
          · simp at h
          · next hlen =>
            rcases hd : aesDec (temp.drop 4) with - | dec
            · rw [hd] at h
              simp at h
            · rw [hd] at h
              dsimp only at h
              simp only [Prod.mk.injEq, Option.some.injEq] at h
              obtain ⟨-, hw, hn⟩ := h
              obtain ⟨hseq, hle⟩ := shm_lookup_copy_seq_ok hc
              exact ⟨temp, hseq, by omega, hle, hn.symm, by rw [← hw]; exact hd⟩
      all_goals (dsimp only at h; simp at h)

/-- Witness for `c10_lookup_decrypted_ignores_buffer_size`: on a stored
8-byte envelope (prefix 5) with a decryption stand-in that triples its
input, the call with `buffer_size = 0` still succeeds, writes 12 bytes
(more than the caller's buffer) and reports length 5. -/
theorem c10_witness :
    (shm_lookup_decrypted decTriple c10seg [7] 0 true =
       shm_lookup_decrypted decTriple c10seg [7] 1000000 true) ∧
    ∃ v, shm_lookup_seq c10seg [7] = (ShmError.OK, some v) ∧ 4 ≤ v.length ∧
      v.length ≤ TEMP_BUFFER_SIZE ∧
      (5 : Nat) = u32FromBytes (v.take 4) ∧
      decTriple (v.drop 4) = some [9, 9, 9, 9, 9, 9, 9, 9, 9, 9, 9, 9] :=
  ⟨c10_lookup_decrypted_ignores_buffer_size.1 decTriple c10seg [7] 0 1000000 true,
   c10_lookup_decrypted_ignores_buffer_size.2 decTriple c10seg [7] 0 true
     [9, 9, 9, 9, 9, 9, 9, 9, 9, 9, 9, 9] 5 (by decide)⟩

/-
Sorting and deduplication lemmas for the int-set round trip (claim C7).
-/

lemma mem_insertSorted {α : Type} (le : α → α → Bool) (x : α) (l : List α) (a : α) :
    a ∈ insertSorted le x l ↔ a = x ∨ a ∈ l := by
  induction l with
  | nil => simp [insertSorted]
  | cons y ys ih =>
    unfold insertSorted
    split
    · simp
    · simp only [List.mem_cons, ih]
      tauto

lemma mem_sortBy {α : Type} (le : α → α → Bool) (l : List α) (a : α) :
    a ∈ sortBy le l ↔ a ∈ l := by
  induction l with
  | nil => simp [sortBy]
  | cons x xs ih =>
    unfold sortBy
    rw [mem_insertSorted, ih]
    simp

lemma pairwise_insertSorted {α : Type} (le : α → α → Bool)
    (htot : ∀ a b, (le a b || le b a) = true)
    (htr : ∀ a b c, le a b = true → le b c = true → le a c = true)
    (x : α) (l : List α) (h : List.Pairwise (fun a b => le a b = true) l) :
    List.Pairwise (fun a b => le a b = true) (insertSorted le x l) := by
  induction l with
  | nil => simp [insertSorted]
  | cons y ys ih =>
    obtain ⟨hy, hys⟩ := List.pairwise_cons.mp h
    unfold insertSorted
    split
    · next hxy =>
      refine List.pairwise_cons.mpr ⟨?_, h⟩
      intro b hb
      rcases List.mem_cons.mp hb with rfl | hb
      · exact hxy
      · exact htr x y b hxy (hy b hb)
    · next hxy =>
      have hyx : le y x = true := by
        have := htot x y
        rcases Bool.or_eq_true_iff.mp this with h1 | h1
        · exact absurd h1 hxy
        · exact h1
      refine List.pairwise_cons.mpr ⟨?_, ih hys⟩
      intro b hb
      rcases (mem_insertSorted le x ys b).mp hb with rfl | hb
      · exact hyx
      · exact hy b hb

lemma pairwise_sortBy {α : Type} (le : α → α → Bool)
    (htot : ∀ a b, (le a b || le b a) = true)
    (htr : ∀ a b c, le a b = true → le b c = true → le a c = true)
    (l : List α) :
    List.Pairwise (fun a b => le a b = true) (sortBy le l) := by
  induction l with
  | nil => exact List.Pairwise.nil
  | cons x xs ih => exact pairwise_insertSorted le htot htr x (sortBy le xs) ih

lemma dedupFrom_spec (p : Int) (l : List Int) (hs : List.Pairwise (· ≤ ·) l)
    (hp : ∀ y ∈ l, p ≤ y) :
    List.Pairwise (· < ·) (dedupFrom p l) ∧ (∀ y ∈ dedupFrom p l, p < y) ∧
    (∀ y, y ∈ dedupFrom p l ↔ y ∈ l ∧ y ≠ p) := by
  induction l generalizing p with
  | nil => simp [dedupFrom]
  | cons y ys ih =>
    obtain ⟨hy, hys⟩ := List.pairwise_cons.mp hs
    unfold dedupFrom
    split
    · next hyp =>
      subst hyp
      obtain ⟨ih1, ih2, ih3⟩ := ih y hys hy
      refine ⟨ih1, ih2, fun z => ?_⟩
      rw [ih3 z]
      constructor
      · rintro ⟨hz, hzp⟩
        exact ⟨List.mem_cons_of_mem _ hz, hzp⟩
      · rintro ⟨hz, hzp⟩
        rcases List.mem_cons.mp hz with rfl | hz
        · exact absurd rfl hzp
        · exact ⟨hz, hzp⟩
    · next hyp =>
      have hpy : p < y := lt_of_le_of_ne (hp y (List.mem_cons_self y ys)) (Ne.symm hyp)
      obtain ⟨ih1, ih2, ih3⟩ := ih y hys hy
      refine ⟨?_, ?_, ?_⟩
      · refine List.pairwise_cons.mpr ⟨?_, ih1⟩
        intro b hb
        exact ih2 b hb
      · intro z hz
        rcases List.mem_cons.mp hz with rfl | hz
        · exact hpy
        · exact lt_trans hpy (ih2 z hz)
      · intro z
        simp only [List.mem_cons, ih3 z]
        constructor
        · rintro (rfl | ⟨hz, hzy⟩)
          · exact ⟨Or.inl rfl, by omega⟩
          · refine ⟨Or.inr hz, ?_⟩
            have := hy z hz
            omega
        · rintro ⟨rfl | hz, hzp⟩
          · exact Or.inl rfl
          · by_cases hzy : z = y
            · exact Or.inl hzy
            · exact Or.inr ⟨hz, hzy⟩

lemma sorted_unique_spec (values : List Int) :
    List.Pairwise (· < ·) (sorted_unique values) ∧
    (∀ x, x ∈ sorted_unique values ↔ x ∈ values) := by
  have hsorted : List.Pairwise (· ≤ ·) (sortBy (fun a b => decide (a ≤ b)) values) := by
    have := pairwise_sortBy (fun a b : Int => decide (a ≤ b))
      (fun a b => by simp; omega) (fun a b c h1 h2 => by simp at h1 h2 ⊢; omega) values
    exact this.imp (fun h => by simpa using h)
  have hmem := mem_sortBy (fun a b : Int => decide (a ≤ b)) values
  unfold sorted_unique
  rcases hso : sortBy (fun a b : Int => decide (a ≤ b)) values with - | ⟨x, xs⟩
  · constructor
    · exact List.Pairwise.nil
    · intro z
      simp [dedup_adjacent]
      intro hz
      have := (hmem z).mpr hz
      rw [hso] at this
      simp at this
  · rw [hso] at hsorted hmem
    obtain ⟨hx, hxs⟩ := List.pairwise_cons.mp hsorted
    obtain ⟨d1, d2, d3⟩ := dedupFrom_spec x xs hxs hx
    unfold dedup_adjacent
    refine ⟨?_, ?_⟩
    · exact List.pairwise_cons.mpr ⟨fun b hb => d2 b hb, d1⟩
    · intro z
      rw [← hmem z]
      simp only [List.mem_cons, d3 z]
      constructor
      · rintro (rfl | ⟨hz, -⟩)
        · exact Or.inl rfl
        · exact Or.inr hz
      · rintro (rfl | hz)
        · exact Or.inl rfl
        · by_cases hzx : z = x
          · exact Or.inl hzx
          · exact Or.inr ⟨hz, hzx⟩


/-
Byte-level decode lemmas.
-/

lemma u32FromBytes_u32ToBytes (n : Nat) (h : n < 2 ^ 32) :
    u32FromBytes (u32ToBytes n) = n := by
  unfold u32FromBytes u32ToBytes
  simp only [List.getD_cons_zero, List.getD_cons_succ]
  omega

lemma i64ToBytes_length (v : Int) : (i64ToBytes v).length = 8 := by
  simp [i64ToBytes]

lemma i64FromBytes_i64ToBytes (v : Int) (h1 : -(2 ^ 63) ≤ v) (h2 : v < 2 ^ 63) :
    i64FromBytes (i64ToBytes v) = v := by
  unfold i64FromBytes i64ToBytes
  have hnn := Int.emod_nonneg v (show (2 ^ 64 : Int) ≠ 0 by norm_num)
  have hlt := Int.emod_lt_of_pos v (show (0 : Int) < 2 ^ 64 by norm_num)
  norm_num [List.range_succ]
  split <;> omega

lemma readBytes_writeBytes_within (mem : Nat → Nat) (off : Nat) (bs : List Nat)
    (a n : Nat) (h : a + n ≤ bs.length) :
    readBytes (writeBytes mem off bs) (off + a) n = sliceD bs a n := by
  unfold readBytes sliceD
  apply List.map_congr_left
  intro i hi
  have hi' := List.mem_range.mp hi
  rw [show off + a + i = off + (a + i) by omega]
  exact writeBytes_apply_in mem off bs (a + i) (by omega)

lemma sliceD_all (xs : List Nat) : sliceD xs 0 xs.length = xs := by
  unfold sliceD
  simpa using map_range_getD 0 xs

lemma sliceD_append_left (xs ys : List Nat) (a n : Nat) (h : a + n ≤ xs.length) :
    sliceD (xs ++ ys) a n = sliceD xs a n := by
  unfold sliceD
  apply List.map_congr_left
  intro i hi
  have hi' := List.mem_range.mp hi
  rw [List.getD_append _ _ _ _ (by omega)]

lemma sliceD_append_right (xs ys : List Nat) (a n : Nat) :
    sliceD (xs ++ ys) (xs.length + a) n = sliceD ys a n := by
  unfold sliceD
  apply List.map_congr_left
  intro i hi
  rw [show xs.length + a + i = xs.length + (a + i) by omega]
  rw [List.getD_append_right _ _ _ _ (by omega)]
  simp

lemma sliceD_flatten_w (L : List (List Nat)) (w : Nat)
    (hw : ∀ l ∈ L, l.length = w) :
    ∀ i, i < L.length → sliceD L.flatten (w * i) w = L.getD i [] := by
  induction L with
  | nil => intro i hi; simp at hi
  | cons x xs ih =>
    intro i hi
    have hx : x.length = w := hw x (List.mem_cons_self x xs)
    cases i with
    | zero =>
      rw [List.flatten_cons, Nat.mul_zero]
      rw [show (0 : Nat) = (0 : Nat) + 0 from rfl]
      have := sliceD_append_left x xs.flatten 0 w (by omega)
      simpa [← hx, sliceD_all] using this
    | succ j =>
      rw [List.flatten_cons]
      rw [show w * (j + 1) = x.length + w * j by rw [hx, Nat.mul_succ]; omega]
      rw [sliceD_append_right]
      exact ih (fun l hl => hw l (List.mem_cons_of_mem _ hl)) j (by simpa using hi)

lemma length_flatten_i64 (su : List Int) :
    ((su.map i64ToBytes).flatten).length = 8 * su.length := by
  induction su with
  | nil => rfl
  | cons x xs ih =>
    simp only [List.map_cons, List.flatten_cons, List.length_append, ih,
      i64ToBytes_length, List.length_cons]
    omega

lemma length_encode_int_set (su : List Int) :
    (encode_int_set su).length = 4 + 8 * su.length := by
  unfold encode_int_set
  rw [List.length_append, length_flatten_i64]
  rfl

/-- After a successful `insert_record`, the chain walk finds the new node,
whose type tag is `t`, whose value range has exactly the encoded length,
and whose payload reads return the slices of the encoded value bytes. -/
lemma insert_node_lookup {s : Seg} {key bs : List Nat} {t : Nat} {s' : Seg}
    (hg : Good s) (h : insert_record s key bs t = (ShmError.OK, s')) :
    find_node_by_key s' key = some s.hdr.next_free_node_index ∧
    (s'.nodes s.hdr.next_free_node_index).value_type = t ∧
    (s'.nodes s.hdr.next_free_node_index).val_len = bs.length ∧
    ∀ a n, a + n ≤ bs.length →
      readBytes s'.payload ((s'.nodes s.hdr.next_free_node_index).val_off + a) n =
        sliceD bs a n := by
  obtain ⟨hk0, hkM, hv0, hvM, hlt, hcap, hnb, hnn, hcapeq, hnf, hpao, hgen, hbks, hnds,
    hpay⟩ := insert_record_ok h
  have hcapb := hg.cap_lt
  have hcurs := hg.cursor_le
  have h8k := le_align_up8 key.length
  have hnode := hnds s.hdr.next_free_node_index
  rw [if_pos rfl] at hnode
  have hu1 : u32 s.hdr.payload_alloc_off = s.hdr.payload_alloc_off :=
    Nat.mod_eq_of_lt (by omega)
  have hu2 : u32 key.length = key.length :=
    Nat.mod_eq_of_lt (by unfold MAX_VAL_LEN at hkM; omega)
  have hu3 : u32 (s.hdr.payload_alloc_off + align_up key.length 8) =
      s.hdr.payload_alloc_off + align_up key.length 8 :=
    Nat.mod_eq_of_lt (by omega)
  have hu4 : u32 bs.length = bs.length :=
    Nat.mod_eq_of_lt (by unfold MAX_VAL_LEN at hvM; omega)
  have hkeyread : readBytes s'.payload (u32 s.hdr.payload_alloc_off) (u32 key.length) = key := by
    rw [hpay, hu1, hu2]
    rw [readBytes_writeBytes_below _ _ _ _ _ (by omega)]
    exact readBytes_writeBytes_self _ _ _
  have hne : s.hdr.next_free_node_index ≠ EMPTY_INDEX := by
    have := hg.nn_lt
    unfold EMPTY_INDEX
    omega
  refine ⟨?_, by rw [hnode], by rw [hnode]; exact hu4, ?_⟩
  · unfold find_node_by_key
    rw [bucketOf_congr key hnb, hbks (bucketOf s key), if_pos rfl, hnn, findFrom_succ,
      if_neg hne, hnode]
    rw [if_pos ⟨rfl, by rw [hu2], by rw [hkeyread]⟩]
  · intro a n han
    rw [hnode]
    show readBytes s'.payload
      (u32 (s.hdr.payload_alloc_off + align_up key.length 8) + a) n = sliceD bs a n
    rw [hpay, hu3]
    exact readBytes_writeBytes_within _ _ _ a n han


/-
Claim C7 (int-set round trip).
-/

/-- Claim C7: on any reachable segment, a successful `shm_insert_int_set`
followed by `shm_lookup_int_set` on the same key returns `OK` with a view
holding exactly the strictly ascending, deduplicated elements of the input
array (and their count): the round trip is the identity modulo sorting and
deduplication. -/
theorem c7_int_set_round_trip
    (nB nN cap : Nat) (ops : List Op) (s : Seg) (key : List Nat) (values : List Int)
    (h1 : 0 < nB) (h2 : nB < 2 ^ 32) (h3 : nN < 2 ^ 32) (h4 : cap < 2 ^ 32)
    (hs : s = (runH (initSeg nB nN cap) ops).1)
    (hrange : ∀ x ∈ values, -(2 ^ 63 : Int) ≤ x ∧ x < 2 ^ 63)
    (hOK : (shm_insert_int_set s key values).1 = ShmError.OK) :
    shm_lookup_int_set_seq (shm_insert_int_set s key values).2 key =
      (ShmError.OK, some ⟨sorted_unique values, (sorted_unique values).length⟩) ∧
    List.Pairwise (· < ·) (sorted_unique values) ∧
    (∀ x, x ∈ sorted_unique values ↔ x ∈ values) := by
  have hg : Good s := hs ▸ (good_runH nB nN cap ops h1 h2 h3 h4).1
  obtain ⟨hpw, hmem⟩ := sorted_unique_spec values
  refine ⟨?_, hpw, hmem⟩
  rcases h : shm_insert_int_set s key values with ⟨e, s2⟩
  rw [h] at hOK
  dsimp only at hOK
  subst hOK
  have h' : insert_record s key (encode_int_set (sorted_unique values))
      SHM_TYPE_INT_SET = (ShmError.OK, s2) := h
  obtain ⟨hfind, htag, hlen, hreads⟩ := insert_node_lookup hg h'
  have hencLen := length_encode_int_set (sorted_unique values)
  have hvM : (encode_int_set (sorted_unique values)).length ≤ MAX_VAL_LEN :=
    (insert_record_ok h').2.2.2.1
  have hcnt : (sorted_unique values).length < 2 ^ 32 := by
    unfold MAX_VAL_LEN at hvM
    omega
  have hcount : u32FromBytes (readBytes s2.payload
      ((s2.nodes s.hdr.next_free_node_index).val_off) 4) =
      (sorted_unique values).length := by
    have hr := hreads 0 4 (by omega)
    rw [Nat.add_zero] at hr
    rw [hr]
    unfold encode_int_set
    rw [sliceD_append_left _ _ 0 4 (by simp [u32ToBytes])]
    rw [show (4 : Nat) = (u32ToBytes (u32 (sorted_unique values).length)).length
      by simp [u32ToBytes]]
    rw [sliceD_all]
    rw [show u32 (sorted_unique values).length = (sorted_unique values).length from
      Nat.mod_eq_of_lt hcnt]
    exact u32FromBytes_u32ToBytes _ hcnt
  have hdata : ∀ i, i < (sorted_unique values).length →
      i64FromBytes (readBytes s2.payload
        ((s2.nodes s.hdr.next_free_node_index).val_off + 4 + 8 * i) 8) =
      (sorted_unique values).getD i 0 := by
    intro i hi
    have hr := hreads (4 + 8 * i) 8 (by omega)
    rw [show (s2.nodes s.hdr.next_free_node_index).val_off + 4 + 8 * i =
      (s2.nodes s.hdr.next_free_node_index).val_off + (4 + 8 * i) by omega, hr]
    unfold encode_int_set
    rw [show 4 + 8 * i =
      (u32ToBytes (u32 (sorted_unique values).length)).length + 8 * i
      by simp [u32ToBytes]]
    rw [sliceD_append_right]
    rw [sliceD_flatten_w _ 8
      (fun l hl => by
        obtain ⟨x, -, rfl⟩ := List.mem_map.mp hl
        exact i64ToBytes_length x)
      i (by simpa using hi)]
    have hgd : ((sorted_unique values).map i64ToBytes).getD i [] =
        i64ToBytes ((sorted_unique values).getD i 0) := by
      rw [List.getD_eq_getElem?_getD, List.getD_eq_getElem?_getD, List.getElem?_map,
        List.getElem?_eq_getElem hi]
      simp
    rw [hgd]
    have hx : (sorted_unique values).getD i 0 ∈ values := by
      have hin : (sorted_unique values).getD i 0 ∈ sorted_unique values := by
        rw [List.getD_eq_getElem?_getD, List.getElem?_eq_getElem hi]
        exact List.getElem_mem hi
      exact (hmem _).mp hin
    exact i64FromBytes_i64ToBytes _ (hrange _ hx).1 (hrange _ hx).2
  unfold shm_lookup_int_set_seq shm_lookup_int_set_obs
  rw [hfind]
  dsimp only
  rw [if_neg (fun hne => hne htag), if_neg (fun hne => hne rfl)]
  rw [hcount]
  rw [show (List.range (sorted_unique values).length).map
      (fun i => i64FromBytes (readBytes s2.payload
        ((s2.nodes s.hdr.next_free_node_index).val_off + 4 + 8 * i) 8)) =
    (List.range (sorted_unique values).length).map
      (fun i => (sorted_unique values).getD i 0) from
    List.map_congr_left (fun i hi => hdata i (List.mem_range.mp hi))]
  rw [map_range_getD 0 (sorted_unique values)]

/-- Witness for `c7_int_set_round_trip`: inserting `[3, 1, 2, 1, 3]` and
looking it up returns the view `{count = 3, data = [1, 2, 3]}`. -/
theorem c7_witness :
    (shm_lookup_int_set_seq
        (shm_insert_int_set (runH (initSeg 4 4 128) []).1 [5] [3, 1, 2, 1, 3]).2 [5] =
      (ShmError.OK, some ⟨sorted_unique [3, 1, 2, 1, 3],
        (sorted_unique [3, 1, 2, 1, 3]).length⟩) ∧
     List.Pairwise (· < ·) (sorted_unique [3, 1, 2, 1, 3]) ∧
     (∀ x, x ∈ sorted_unique [3, 1, 2, 1, 3] ↔ x ∈ [3, 1, 2, 1, 3])) :=
  c7_int_set_round_trip 4 4 128 [] _ [5] [3, 1, 2, 1, 3]
    (by decide) (by decide) (by decide) (by decide) rfl
    (by decide) (by decide)


/-
Object layout decode lemmas (claim C8).
-/

lemma offs_length (acc : Nat) (L : List (List Nat)) :
    (offs acc L).length = L.length + 1 := by
  induction L generalizing acc with
  | nil => rfl
  | cons x xs ih => simp [offs, ih]

lemma offs_getD (acc : Nat) (L : List (List Nat)) :
    ∀ i, i ≤ L.length →
      (offs acc L).getD i 0 = acc + ((L.take i).map List.length).sum := by
  induction L generalizing acc with
  | nil =>
    intro i hi
    have h0 : i = 0 := by simpa using hi
    subst h0
    simp [offs]
  | cons x xs ih =>
    intro i hi
    cases i with
    | zero => simp [offs]
    | succ j =>
      show (offs (acc + x.length) xs).getD j 0 = _
      rw [ih (acc + x.length) j (by simpa using hi)]
      simp [List.take_succ_cons]
      omega

lemma sum_take_le (L : List (List Nat)) (i : Nat) :
    ((L.take i).map List.length).sum ≤ (L.map List.length).sum := by
  conv_rhs => rw [← List.take_append_drop i L]
  rw [List.map_append, List.sum_append]
  omega

lemma sliceD_flatten_at (L : List (List Nat)) :
    ∀ i, i < L.length →
      sliceD L.flatten (((L.take i).map List.length).sum)
        ((L.getD i []).length) = L.getD i [] := by
  induction L with
  | nil => intro i hi; simp at hi
  | cons x xs ih =>
    intro i hi
    cases i with
    | zero =>
      show sliceD (x ++ xs.flatten) 0 x.length = x
      have := sliceD_append_left x xs.flatten 0 x.length (by omega)
      simpa [sliceD_all] using this
    | succ j =>
      show sliceD (x ++ xs.flatten)
        ((x.length + ((xs.take j).map List.length).sum)) _ = _
      rw [sliceD_append_right]
      exact ih j (by simpa using hi)

lemma length_flatten_u32 (L : List Nat) :
    ((L.map (fun o => u32ToBytes (u32 o))).flatten).length = 4 * L.length := by
  induction L with
  | nil => rfl
  | cons x xs ih =>
    simp only [List.map_cons, List.flatten_cons, List.length_append, ih, List.length_cons]
    simp [u32ToBytes]
    omega

lemma getD_map {α β : Type} (f : α → β) (L : List α) (i : Nat) (hi : i < L.length)
    (d : β) (d' : α) : (L.map f).getD i d = f (L.getD i d') := by
  rw [List.getD_eq_getElem?_getD, List.getD_eq_getElem?_getD, List.getElem?_map,
    List.getElem?_eq_getElem hi]
  simp

lemma sliceD_u32table (L : List Nat) (j : Nat) (hj : j < L.length) :
    sliceD ((L.map (fun o => u32ToBytes (u32 o))).flatten) (4 * j) 4 =
      u32ToBytes (u32 (L.getD j 0)) := by
  rw [sliceD_flatten_w _ 4 (fun l hl => by
      obtain ⟨x, -, rfl⟩ := List.mem_map.mp hl
      simp [u32ToBytes]) j (by simpa using hj)]
  exact getD_map _ L j hj [] 0

lemma length_encode_object (sorted : List ObjField) :
    (encode_object sorted).length =
      align_up (4 + 4 * (sorted.length + 1) +
        ((sorted.map (·.name)).map List.length).sum + sorted.length) 4 +
      4 * (sorted.length + 1) + ((sorted.map (·.payload)).map List.length).sum := by
  unfold encode_object
  have h5 := le_align_up4 (4 + 4 * (sorted.length + 1) +
    ((sorted.map (·.name)).map List.length).sum + sorted.length)
  have l1 : (u32ToBytes (u32 sorted.length)).length = 4 := by simp [u32ToBytes]
  have l2 : (((offs 0 (sorted.map (·.name))).map
      (fun o => u32ToBytes (u32 o))).flatten).length = 4 * (sorted.length + 1) := by
    rw [length_flatten_u32, offs_length, List.length_map]
  have l3 : ((sorted.map (·.name)).flatten).length =
      ((sorted.map (·.name)).map List.length).sum := List.length_flatten _
  have l4 : (sorted.map (·.ftype)).length = sorted.length := by simp
  have l6 : (((offs 0 (sorted.map (·.payload))).map
      (fun o => u32ToBytes (u32 o))).flatten).length = 4 * (sorted.length + 1) := by
    rw [length_flatten_u32, offs_length, List.length_map]
  have l7 : ((sorted.map (·.payload)).flatten).length =
      ((sorted.map (·.payload)).map List.length).sum := List.length_flatten _
  simp only [List.length_append, l1, l2, l3, l4, List.length_replicate, l6, l7]
  omega

lemma readView_shift (mem : Nat → Nat) (base start len : Nat) :
    readView (fun j => mem (base + j)) start len = readBytes mem (base + start) len := by
  unfold readView readBytes
  apply List.map_congr_left
  intro i hi
  rw [Nat.add_assoc]


/-
Order theory of `bytes_less` and the sorted field list (claim C8).
-/

lemma bytes_less_asymm : ∀ {a b : List Nat},
    bytes_less a b = true → bytes_less b a = true → False := by
  intro a
  induction a with
  | nil =>
    intro b h1 h2
    cases b with
    | nil => simp [bytes_less] at h1
    | cons y ys => simp [bytes_less] at h2
  | cons x xs ih =>
    intro b h1 h2
    cases b with
    | nil => simp [bytes_less] at h1
    | cons y ys =>
      unfold bytes_less at h1 h2
      split at h1
      · next hxy =>
        rw [if_neg (by omega), if_pos hxy] at h2
        simp at h2
      · split at h1
        · simp at h1
        · next hxy hyx =>
          rw [if_neg (by omega), if_neg (by omega)] at h2
          exact ih h1 h2

lemma bytes_less_irrefl (a : List Nat) : bytes_less a a = false := by
  by_cases h : bytes_less a a = true
  · exact absurd (bytes_less_asymm h h) not_false
  · simpa using h

lemma bytes_less_trans : ∀ {a b c : List Nat},
    bytes_less a b = true → bytes_less b c = true → bytes_less a c = true := by
  intro a
  induction a with
  | nil =>
    intro b c h1 h2
    cases b with
    | nil => simp [bytes_less] at h1
    | cons y ys =>
      cases c with
      | nil => simp [bytes_less] at h2
      | cons z zs => simp [bytes_less]
  | cons x xs ih =>
    intro b c h1 h2
    cases b with
    | nil => simp [bytes_less] at h1
    | cons y ys =>
      cases c with
      | nil => simp [bytes_less] at h2
      | cons z zs =>
        unfold bytes_less at h1 h2 ⊢
        split at h1
        · next hxy =>
          split at h2
          · next hyz => rw [if_pos (by omega)]
          · split at h2
            · simp at h2
            · next hyz hzy =>
              have hyz2 : y = z := by omega
              subst hyz2
              rw [if_pos hxy]
        · split at h1
          · simp at h1
          · next hxy hyx =>
            have hxy2 : x = y := by omega
            subst hxy2
            split at h2
            · next hxz => rw [if_pos hxz]
            · split at h2
              · simp at h2
              · next hxz hzx =>
                rw [if_neg hxz, if_neg hzx]
                exact ih h1 h2

lemma bytes_less_connex : ∀ {a b : List Nat}, a ≠ b →
    bytes_less a b = true ∨ bytes_less b a = true := by
  intro a
  induction a with
  | nil =>
    intro b hne
    cases b with
    | nil => exact absurd rfl hne
    | cons y ys => exact Or.inl (by simp [bytes_less])
  | cons x xs ih =>
    intro b hne
    cases b with
    | nil => exact Or.inr (by simp [bytes_less])
    | cons y ys =>
      by_cases hxy : x < y
      · exact Or.inl (by unfold bytes_less; rw [if_pos hxy])
      · by_cases hyx : y < x
        · exact Or.inr (by unfold bytes_less; rw [if_pos hyx])
        · have hxey : x = y := by omega
          subst hxey
          have hne2 : xs ≠ ys := by
            intro hEq
            exact hne (by rw [hEq])
          rcases ih hne2 with h | h
          · left
            unfold bytes_less
            rw [if_neg (by omega), if_neg (by omega)]
            exact h
          · right
            unfold bytes_less
            rw [if_neg (by omega), if_neg (by omega)]
            exact h

lemma perm_insertSorted {α : Type} (le : α → α → Bool) (x : α) (l : List α) :
    (insertSorted le x l).Perm (x :: l) := by
  induction l with
  | nil => exact List.Perm.refl _
  | cons y ys ih =>
    unfold insertSorted
    split
    · exact List.Perm.refl _
    · exact List.Perm.trans (List.Perm.cons y ih) (List.Perm.swap x y ys)

lemma perm_sortBy {α : Type} (le : α → α → Bool) (l : List α) :
    (sortBy le l).Perm l := by
  induction l with
  | nil => exact List.Perm.refl _
  | cons x xs ih =>
    exact List.Perm.trans (perm_insertSorted le x (sortBy le xs)) (List.Perm.cons x ih)

lemma sorted_fields_pairwise (fields : List ObjField)
    (hdist : List.Pairwise (fun f g => f.name ≠ g.name) fields) :
    List.Pairwise (fun f g => bytes_less f.name g.name = true)
      (sortBy (fun a b => ! bytes_less b.name a.name) fields) := by
  have hle := pairwise_sortBy (fun a b : ObjField => ! bytes_less b.name a.name)
    (fun a b => by
      simp only [Bool.or_eq_true, Bool.not_eq_true']
      cases h1 : bytes_less b.name a.name with
      | false => exact Or.inl rfl
      | true =>
        cases h2 : bytes_less a.name b.name with
        | false => exact Or.inr rfl
        | true => exact absurd (bytes_less_asymm h1 h2) not_false)
    (fun a b c h1 h2 => by
      simp only [Bool.not_eq_true'] at h1 h2 ⊢
      by_contra hca
      have hca' : bytes_less c.name a.name = true := by
        simpa using hca
      by_cases hcb : c.name = b.name
      · rw [hcb] at hca'
        rw [hca'] at h1
        simp at h1
      · rcases bytes_less_connex hcb with h | h
        · rw [h] at h2
          simp at h2
        · rw [bytes_less_trans h hca'] at h1
          simp at h1)
    fields
  have hdist' : List.Pairwise (fun f g : ObjField => f.name ≠ g.name)
      (sortBy (fun a b => ! bytes_less b.name a.name) fields) :=
    ((perm_sortBy _ fields).pairwise_iff (fun {a b} h hEq => h hEq.symm)).mpr hdist
  exact (hle.and hdist').imp (fun {a b} h => by
    obtain ⟨h1, h2⟩ := h
    rcases bytes_less_connex h2 with h3 | h3
    · exact h3
    · rw [h3] at h1
      simp at h1)

lemma adjacent_dup_eq_false : ∀ {l : List ObjField},
    List.Pairwise (fun f g => f.name ≠ g.name) l → adjacent_dup l = false := by
  intro l
  induction l with
  | nil => intro _; rfl
  | cons f rest ih =>
    intro h
    cases rest with
    | nil => rfl
    | cons g rest2 =>
      obtain ⟨hf, htail⟩ := List.pairwise_cons.mp h
      unfold adjacent_dup
      rw [if_neg (hf g (List.mem_cons_self g rest2))]
      exact ih htail

lemma find_name_unique : ∀ (fields : List ObjField) (name : List Nat) (j : Nat),
    List.Pairwise (fun f g => bytes_less f.name g.name = true) fields →
    j < fields.length → (fields.getD j dummyField).name = name →
    fields.find? (fun f => f.name = name) = some (fields.getD j dummyField) := by
  intro fields
  induction fields with
  | nil => intro name j _ hj; simp at hj
  | cons f rest ih =>
    intro name j hp hj hname
    obtain ⟨hf, htail⟩ := List.pairwise_cons.mp hp
    cases j with
    | zero =>
      simp only [List.getD_cons_zero] at hname ⊢
      rw [List.find?_cons_of_pos _ (by simp [hname])]
    | succ k =>
      simp only [List.getD_cons_succ] at hname ⊢
      have hkmem : rest.getD k dummyField ∈ rest := by
        rw [List.getD_eq_getElem?_getD, List.getElem?_eq_getElem (by simpa using hj)]
        exact List.getElem_mem _
      have hlt : bytes_less f.name (rest.getD k dummyField).name = true :=
        hf _ hkmem
      rw [List.find?_cons_of_neg _ (by
        simp only [decide_eq_true_eq]
        intro hEq
        rw [hEq, hname] at hlt
        simp [bytes_less_irrefl] at hlt)]
      exact ih name k htail (by simpa using hj) hname


/-
Slices of `encode_object` at the offsets the view reader computes.
-/

lemma sliceD_one (bs : List Nat) (a : Nat) : sliceD bs a 1 = [bs.getD a 0] := by
  simp [sliceD, List.range_succ]

lemma sliceD_len4 (bs : List Nat) (h : bs.length = 4) : sliceD bs 0 4 = bs := by
  rw [← h]
  exact sliceD_all bs

lemma getD_eq_getElem_of_lt {α : Type} (l : List α) (d : α) (i : Nat)
    (hi : i < l.length) : l.getD i d = l.get ⟨i, hi⟩ := by
  rw [List.getD_eq_getElem?_getD, List.getElem?_eq_getElem hi]
  rfl

lemma sum_take_succ (L : List (List Nat)) (i : Nat) (hi : i < L.length) :
    ((L.take (i + 1)).map List.length).sum =
      ((L.take i).map List.length).sum + (L.getD i []).length := by
  rw [List.take_succ, List.map_append, List.sum_append]
  rw [List.getElem?_eq_getElem hi]
  rw [getD_eq_getElem_of_lt L [] i hi]
  simp

lemma lenPre2 (sorted : List ObjField) :
    (u32ToBytes (u32 sorted.length) ++
      ((offs 0 (sorted.map (fun f : ObjField => f.name))).map (fun o => u32ToBytes (u32 o))).flatten).length =
    4 + 4 * (sorted.length + 1) := by
  rw [List.length_append, length_flatten_u32, offs_length, List.length_map]
  simp [u32ToBytes]

lemma lenPre3 (sorted : List ObjField) :
    (u32ToBytes (u32 sorted.length) ++
      ((offs 0 (sorted.map (fun f : ObjField => f.name))).map (fun o => u32ToBytes (u32 o))).flatten ++
      (sorted.map (fun f : ObjField => f.name)).flatten).length =
    4 + 4 * (sorted.length + 1) + ((sorted.map (fun f : ObjField => f.name)).map List.length).sum := by
  rw [List.length_append, lenPre2, List.length_flatten]

lemma lenPre4 (sorted : List ObjField) :
    (u32ToBytes (u32 sorted.length) ++
      ((offs 0 (sorted.map (fun f : ObjField => f.name))).map (fun o => u32ToBytes (u32 o))).flatten ++
      (sorted.map (fun f : ObjField => f.name)).flatten ++ sorted.map (fun f : ObjField => f.ftype)).length =
    4 + 4 * (sorted.length + 1) + ((sorted.map (fun f : ObjField => f.name)).map List.length).sum +
      sorted.length := by
  rw [List.length_append, lenPre3, List.length_map]

lemma lenPre5 (sorted : List ObjField) :
    (u32ToBytes (u32 sorted.length) ++
      ((offs 0 (sorted.map (fun f : ObjField => f.name))).map (fun o => u32ToBytes (u32 o))).flatten ++
      (sorted.map (fun f : ObjField => f.name)).flatten ++ sorted.map (fun f : ObjField => f.ftype) ++
      List.replicate (align_up (4 + 4 * (sorted.length + 1) +
          ((sorted.map (fun f : ObjField => f.name)).map List.length).sum + sorted.length) 4 -
        (4 + 4 * (sorted.length + 1) +
          ((sorted.map (fun f : ObjField => f.name)).map List.length).sum + sorted.length)) 0).length =
    align_up (4 + 4 * (sorted.length + 1) +
      ((sorted.map (fun f : ObjField => f.name)).map List.length).sum + sorted.length) 4 := by
  have hb := le_align_up4 (4 + 4 * (sorted.length + 1) +
    ((sorted.map (fun f : ObjField => f.name)).map List.length).sum + sorted.length)
  rw [List.length_append, lenPre4, List.length_replicate]
  omega

lemma lenPre6 (sorted : List ObjField) :
    (u32ToBytes (u32 sorted.length) ++
      ((offs 0 (sorted.map (fun f : ObjField => f.name))).map (fun o => u32ToBytes (u32 o))).flatten ++
      (sorted.map (fun f : ObjField => f.name)).flatten ++ sorted.map (fun f : ObjField => f.ftype) ++
      List.replicate (align_up (4 + 4 * (sorted.length + 1) +
          ((sorted.map (fun f : ObjField => f.name)).map List.length).sum + sorted.length) 4 -
        (4 + 4 * (sorted.length + 1) +
          ((sorted.map (fun f : ObjField => f.name)).map List.length).sum + sorted.length)) 0 ++
      ((offs 0 (sorted.map (fun f : ObjField => f.payload))).map (fun o => u32ToBytes (u32 o))).flatten).length =
    align_up (4 + 4 * (sorted.length + 1) +
      ((sorted.map (fun f : ObjField => f.name)).map List.length).sum + sorted.length) 4 +
      4 * (sorted.length + 1) := by
  rw [List.length_append, lenPre5, length_flatten_u32, offs_length, List.length_map]

lemma encObj_count (sorted : List ObjField) :
    sliceD (encode_object sorted) 0 4 = u32ToBytes (u32 sorted.length) := by
  have hb := le_align_up4 (4 + 4 * (sorted.length + 1) +
    ((sorted.map (fun f : ObjField => f.name)).map List.length).sum + sorted.length)
  unfold encode_object
  dsimp only
  rw [sliceD_append_left _ _ 0 4 (by rw [lenPre6]; omega)]
  rw [sliceD_append_left _ _ 0 4 (by rw [lenPre5]; omega)]
  rw [sliceD_append_left _ _ 0 4 (by rw [lenPre4]; omega)]
  rw [sliceD_append_left _ _ 0 4 (by rw [lenPre3]; omega)]
  rw [sliceD_append_left _ _ 0 4 (by rw [lenPre2]; omega)]
  rw [sliceD_append_left _ _ 0 4 (by simp [u32ToBytes])]
  exact sliceD_len4 _ (by simp [u32ToBytes])

lemma encObj_nameOff (sorted : List ObjField) (j : Nat) (hj : j ≤ sorted.length) :
    sliceD (encode_object sorted) (4 + 4 * j) 4 =
      u32ToBytes (u32 ((((sorted.map (fun f : ObjField => f.name)).take j).map List.length).sum)) := by
  have hb := le_align_up4 (4 + 4 * (sorted.length + 1) +
    ((sorted.map (fun f : ObjField => f.name)).map List.length).sum + sorted.length)
  unfold encode_object
  dsimp only
  rw [sliceD_append_left _ _ (4 + 4 * j) 4 (by rw [lenPre6]; omega)]
  rw [sliceD_append_left _ _ (4 + 4 * j) 4 (by rw [lenPre5]; omega)]
  rw [sliceD_append_left _ _ (4 + 4 * j) 4 (by rw [lenPre4]; omega)]
  rw [sliceD_append_left _ _ (4 + 4 * j) 4 (by rw [lenPre3]; omega)]
  rw [sliceD_append_left _ _ (4 + 4 * j) 4 (by rw [lenPre2]; omega)]
  rw [show 4 + 4 * j = (u32ToBytes (u32 sorted.length)).length + 4 * j by
    simp [u32ToBytes]]
  rw [sliceD_append_right]
  rw [sliceD_u32table _ j (by rw [offs_length, List.length_map]; omega)]
  rw [offs_getD 0 (sorted.map (fun f : ObjField => f.name)) j (by rw [List.length_map]; exact hj)]
  norm_num

lemma encObj_name (sorted : List ObjField) (i : Nat) (hi : i < sorted.length) :
    sliceD (encode_object sorted)
      (4 + 4 * (sorted.length + 1) + (((sorted.map (fun f : ObjField => f.name)).take i).map List.length).sum)
      (sorted.getD i dummyField).name.length = (sorted.getD i dummyField).name := by
  have hb := le_align_up4 (4 + 4 * (sorted.length + 1) +
    ((sorted.map (fun f : ObjField => f.name)).map List.length).sum + sorted.length)
  have hgd := getD_map (fun f : ObjField => f.name) sorted i hi [] dummyField
  have hsucc := sum_take_succ (sorted.map (fun f : ObjField => f.name)) i (by rw [List.length_map]; exact hi)
  have hle := sum_take_le (sorted.map (fun f : ObjField => f.name)) (i + 1)
  rw [hgd] at hsucc
  unfold encode_object
  dsimp only
  rw [sliceD_append_left _ _ _ _ (by rw [lenPre6]; omega)]
  rw [sliceD_append_left _ _ _ _ (by rw [lenPre5]; omega)]
  rw [sliceD_append_left _ _ _ _ (by rw [lenPre4]; omega)]
  rw [sliceD_append_left _ _ _ _ (by rw [lenPre3]; omega)]
  rw [show 4 + 4 * (sorted.length + 1) +
        (((sorted.map (fun f : ObjField => f.name)).take i).map List.length).sum =
      (u32ToBytes (u32 sorted.length) ++
        ((offs 0 (sorted.map (fun f : ObjField => f.name))).map (fun o => u32ToBytes (u32 o))).flatten).length +
        (((sorted.map (fun f : ObjField => f.name)).take i).map List.length).sum by
    rw [lenPre2]]
  rw [sliceD_append_right]
  rw [← hgd]
  exact sliceD_flatten_at (sorted.map (fun f : ObjField => f.name)) i (by rw [List.length_map]; exact hi)

lemma encObj_type (sorted : List ObjField) (i : Nat) (hi : i < sorted.length) :
    sliceD (encode_object sorted)
      (4 + 4 * (sorted.length + 1) + ((sorted.map (fun f : ObjField => f.name)).map List.length).sum + i) 1 =
      [(sorted.getD i dummyField).ftype] := by
  have hb := le_align_up4 (4 + 4 * (sorted.length + 1) +
    ((sorted.map (fun f : ObjField => f.name)).map List.length).sum + sorted.length)
  unfold encode_object
  dsimp only
  rw [sliceD_append_left _ _ _ _ (by rw [lenPre6]; omega)]
  rw [sliceD_append_left _ _ _ _ (by rw [lenPre5]; omega)]
  rw [sliceD_append_left _ _ _ _ (by rw [lenPre4]; omega)]
  rw [show 4 + 4 * (sorted.length + 1) + ((sorted.map (fun f : ObjField => f.name)).map List.length).sum + i =
      (u32ToBytes (u32 sorted.length) ++
        ((offs 0 (sorted.map (fun f : ObjField => f.name))).map (fun o => u32ToBytes (u32 o))).flatten ++
        (sorted.map (fun f : ObjField => f.name)).flatten).length + i by
    rw [lenPre3]]
  rw [sliceD_append_right]
  rw [sliceD_one]
  rw [getD_map (fun f : ObjField => f.ftype) sorted i hi 0 dummyField]

lemma encObj_valOff (sorted : List ObjField) (j : Nat) (hj : j ≤ sorted.length) :
    sliceD (encode_object sorted)
      (align_up (4 + 4 * (sorted.length + 1) +
          ((sorted.map (fun f : ObjField => f.name)).map List.length).sum + sorted.length) 4 + 4 * j) 4 =
      u32ToBytes (u32 ((((sorted.map (fun f : ObjField => f.payload)).take j).map List.length).sum)) := by
  unfold encode_object
  dsimp only
  rw [sliceD_append_left _ _ _ _ (by rw [lenPre6]; omega)]
  rw [show align_up (4 + 4 * (sorted.length + 1) +
        ((sorted.map (fun f : ObjField => f.name)).map List.length).sum + sorted.length) 4 + 4 * j =
      (u32ToBytes (u32 sorted.length) ++
        ((offs 0 (sorted.map (fun f : ObjField => f.name))).map (fun o => u32ToBytes (u32 o))).flatten ++
        (sorted.map (fun f : ObjField => f.name)).flatten ++ sorted.map (fun f : ObjField => f.ftype) ++
        List.replicate (align_up (4 + 4 * (sorted.length + 1) +
            ((sorted.map (fun f : ObjField => f.name)).map List.length).sum + sorted.length) 4 -
          (4 + 4 * (sorted.length + 1) +
            ((sorted.map (fun f : ObjField => f.name)).map List.length).sum + sorted.length)) 0).length +
        4 * j by
    rw [lenPre5]]
  rw [sliceD_append_right]
  rw [sliceD_u32table _ j (by rw [offs_length, List.length_map]; omega)]
  rw [offs_getD 0 (sorted.map (fun f : ObjField => f.payload)) j (by rw [List.length_map]; exact hj)]
  norm_num

lemma encObj_val (sorted : List ObjField) (i : Nat) (hi : i < sorted.length) :
    sliceD (encode_object sorted)
      (align_up (4 + 4 * (sorted.length + 1) +
          ((sorted.map (fun f : ObjField => f.name)).map List.length).sum + sorted.length) 4 +
        4 * (sorted.length + 1) +
        (((sorted.map (fun f : ObjField => f.payload)).take i).map List.length).sum)
      (sorted.getD i dummyField).payload.length = (sorted.getD i dummyField).payload := by
  have hgd := getD_map (fun f : ObjField => f.payload) sorted i hi [] dummyField
  unfold encode_object
  dsimp only
  rw [show align_up (4 + 4 * (sorted.length + 1) +
        ((sorted.map (fun f : ObjField => f.name)).map List.length).sum + sorted.length) 4 +
        4 * (sorted.length + 1) +
        (((sorted.map (fun f : ObjField => f.payload)).take i).map List.length).sum =
      (u32ToBytes (u32 sorted.length) ++
        ((offs 0 (sorted.map (fun f : ObjField => f.name))).map (fun o => u32ToBytes (u32 o))).flatten ++
        (sorted.map (fun f : ObjField => f.name)).flatten ++ sorted.map (fun f : ObjField => f.ftype) ++
        List.replicate (align_up (4 + 4 * (sorted.length + 1) +
            ((sorted.map (fun f : ObjField => f.name)).map List.length).sum + sorted.length) 4 -
          (4 + 4 * (sorted.length + 1) +
            ((sorted.map (fun f : ObjField => f.name)).map List.length).sum + sorted.length)) 0 ++
        ((offs 0 (sorted.map (fun f : ObjField => f.payload))).map
          (fun o => u32ToBytes (u32 o))).flatten).length +
        (((sorted.map (fun f : ObjField => f.payload)).take i).map List.length).sum by
    rw [lenPre6]]
  rw [sliceD_append_right]
  rw [← hgd]
  exact sliceD_flatten_at (sorted.map (fun f : ObjField => f.payload)) i (by rw [List.length_map]; exact hi)


/-- A view built by `objViewAt` over memory that holds `encode_object sorted`
at offset `voff` models the sorted field list: count, per-field names, type
tags and payload bytes all decode to the encoded fields. -/
lemma objViewAt_models (sorted : List ObjField) (mem : Nat → Nat) (voff : Nat)
    (hsz : (encode_object sorted).length ≤ MAX_VAL_LEN)
    (hreads : ∀ a n, a + n ≤ (encode_object sorted).length →
      readBytes mem (voff + a) n = sliceD (encode_object sorted) a n) :
    ViewModels (objViewAt mem voff) sorted := by
  have hEnc := length_encode_object sorted
  have hb := le_align_up4 (4 + 4 * (sorted.length + 1) +
    ((sorted.map (fun f : ObjField => f.name)).map List.length).sum + sorted.length)
  unfold MAX_VAL_LEN at hsz
  have hcount : u32FromBytes (readBytes mem voff 4) = sorted.length := by
    have hr := hreads 0 4 (by omega)
    rw [Nat.add_zero] at hr
    rw [hr, encObj_count]
    rw [show u32 sorted.length = sorted.length from Nat.mod_eq_of_lt (by omega)]
    exact u32FromBytes_u32ToBytes _ (by omega)
  have hnameOff : ∀ j, j ≤ sorted.length →
      u32FromBytes (readBytes mem (voff + 4 + 4 * j) 4) =
        (((sorted.map (fun f : ObjField => f.name)).take j).map List.length).sum := by
    intro j hj
    have hts := sum_take_le (sorted.map (fun f : ObjField => f.name)) j
    have hr := hreads (4 + 4 * j) 4 (by omega)
    rw [show voff + 4 + 4 * j = voff + (4 + 4 * j) by omega, hr, encObj_nameOff sorted j hj]
    rw [show u32 ((((sorted.map (fun f : ObjField => f.name)).take j).map List.length).sum) =
        (((sorted.map (fun f : ObjField => f.name)).take j).map List.length).sum from
      Nat.mod_eq_of_lt (by omega)]
    exact u32FromBytes_u32ToBytes _ (by omega)
  have hNSfull : (((sorted.map (fun f : ObjField => f.name)).take
      sorted.length).map List.length).sum =
      ((sorted.map (fun f : ObjField => f.name)).map List.length).sum := by
    have h1 : sorted.length = (sorted.map (fun f : ObjField => f.name)).length := by simp
    rw [h1, List.take_length]
  have hname : ∀ i, i < sorted.length →
      readBytes mem (voff + 4 + 4 * (sorted.length + 1) +
          (((sorted.map (fun f : ObjField => f.name)).take i).map List.length).sum)
        (sorted.getD i dummyField).name.length = (sorted.getD i dummyField).name := by
    intro i hi
    have hgd := getD_map (fun f : ObjField => f.name) sorted i hi [] dummyField
    have hsucc := sum_take_succ (sorted.map (fun f : ObjField => f.name)) i
      (by rw [List.length_map]; exact hi)
    rw [hgd] at hsucc
    have hle2 := sum_take_le (sorted.map (fun f : ObjField => f.name)) (i + 1)
    have hr := hreads (4 + 4 * (sorted.length + 1) +
        (((sorted.map (fun f : ObjField => f.name)).take i).map List.length).sum)
      (sorted.getD i dummyField).name.length (by omega)
    rw [show voff + 4 + 4 * (sorted.length + 1) +
        (((sorted.map (fun f : ObjField => f.name)).take i).map List.length).sum =
      voff + (4 + 4 * (sorted.length + 1) +
        (((sorted.map (fun f : ObjField => f.name)).take i).map List.length).sum) by omega]
    rw [hr]
    exact encObj_name sorted i hi
  have htype : ∀ i, i < sorted.length →
      mem (voff + 4 + 4 * (sorted.length + 1) +
          ((sorted.map (fun f : ObjField => f.name)).map List.length).sum + i) =
        (sorted.getD i dummyField).ftype := by
    intro i hi
    have hr := hreads (4 + 4 * (sorted.length + 1) +
        ((sorted.map (fun f : ObjField => f.name)).map List.length).sum + i) 1 (by omega)
    rw [encObj_type sorted i hi] at hr
    have hone : readBytes mem (voff + (4 + 4 * (sorted.length + 1) +
        ((sorted.map (fun f : ObjField => f.name)).map List.length).sum + i)) 1 =
        [mem (voff + (4 + 4 * (sorted.length + 1) +
          ((sorted.map (fun f : ObjField => f.name)).map List.length).sum + i))] := by
      simp [readBytes, List.range_succ]
    rw [hone] at hr
    rw [show voff + 4 + 4 * (sorted.length + 1) +
        ((sorted.map (fun f : ObjField => f.name)).map List.length).sum + i =
      voff + (4 + 4 * (sorted.length + 1) +
        ((sorted.map (fun f : ObjField => f.name)).map List.length).sum + i) by omega]
    simpa using hr
  have hvalOff : ∀ j, j ≤ sorted.length →
      u32FromBytes (readBytes mem (voff + align_up (4 + 4 * (sorted.length + 1) +
          ((sorted.map (fun f : ObjField => f.name)).map List.length).sum +
          sorted.length) 4 + 4 * j) 4) =
        (((sorted.map (fun f : ObjField => f.payload)).take j).map List.length).sum := by
    intro j hj
    have hts := sum_take_le (sorted.map (fun f : ObjField => f.payload)) j
    have hr := hreads (align_up (4 + 4 * (sorted.length + 1) +
        ((sorted.map (fun f : ObjField => f.name)).map List.length).sum +
        sorted.length) 4 + 4 * j) 4 (by omega)
    rw [show voff + align_up (4 + 4 * (sorted.length + 1) +
        ((sorted.map (fun f : ObjField => f.name)).map List.length).sum +
        sorted.length) 4 + 4 * j =
      voff + (align_up (4 + 4 * (sorted.length + 1) +
        ((sorted.map (fun f : ObjField => f.name)).map List.length).sum +
        sorted.length) 4 + 4 * j) by omega]
    rw [hr, encObj_valOff sorted j hj]
    rw [show u32 ((((sorted.map (fun f : ObjField => f.payload)).take j).map
          List.length).sum) =
        (((sorted.map (fun f : ObjField => f.payload)).take j).map List.length).sum from
      Nat.mod_eq_of_lt (by omega)]
    exact u32FromBytes_u32ToBytes _ (by omega)
  have hval : ∀ i, i < sorted.length →
      readBytes mem (voff + align_up (4 + 4 * (sorted.length + 1) +
          ((sorted.map (fun f : ObjField => f.name)).map List.length).sum +
          sorted.length) 4 + 4 * (sorted.length + 1) +
          (((sorted.map (fun f : ObjField => f.payload)).take i).map List.length).sum)
        (sorted.getD i dummyField).payload.length = (sorted.getD i dummyField).payload := by
    intro i hi
    have hgd := getD_map (fun f : ObjField => f.payload) sorted i hi [] dummyField
    have hsucc := sum_take_succ (sorted.map (fun f : ObjField => f.payload)) i
      (by rw [List.length_map]; exact hi)
    rw [hgd] at hsucc
    have hle2 := sum_take_le (sorted.map (fun f : ObjField => f.payload)) (i + 1)
    have hr := hreads (align_up (4 + 4 * (sorted.length + 1) +
        ((sorted.map (fun f : ObjField => f.name)).map List.length).sum +
        sorted.length) 4 + 4 * (sorted.length + 1) +
        (((sorted.map (fun f : ObjField => f.payload)).take i).map List.length).sum)
      (sorted.getD i dummyField).payload.length (by omega)
    rw [show voff + align_up (4 + 4 * (sorted.length + 1) +
        ((sorted.map (fun f : ObjField => f.name)).map List.length).sum +
        sorted.length) 4 + 4 * (sorted.length + 1) +
        (((sorted.map (fun f : ObjField => f.payload)).take i).map List.length).sum =
      voff + (align_up (4 + 4 * (sorted.length + 1) +
        ((sorted.map (fun f : ObjField => f.name)).map List.length).sum +
        sorted.length) 4 + 4 * (sorted.length + 1) +
        (((sorted.map (fun f : ObjField => f.payload)).take i).map List.length).sum) by
      omega]
    rw [hr]
    exact encObj_val sorted i hi
  refine ⟨hcount, ?_⟩
  intro i hi
  refine ⟨?_, ?_, ?_⟩
  · unfold viewName objViewAt
    dsimp only
    rw [hcount]
    rw [hnameOff i (le_of_lt hi), hnameOff (i + 1) hi]
    rw [readView_shift mem (voff + 4 + 4 * (sorted.length + 1))
      ((((sorted.map (fun f : ObjField => f.name)).take i).map List.length).sum)
      ((((sorted.map (fun f : ObjField => f.name)).take (i + 1)).map List.length).sum -
        (((sorted.map (fun f : ObjField => f.name)).take i).map List.length).sum)]
    have hgd := getD_map (fun f : ObjField => f.name) sorted i hi [] dummyField
    have hsucc := sum_take_succ (sorted.map (fun f : ObjField => f.name)) i
      (by rw [List.length_map]; exact hi)
    rw [hgd] at hsucc
    rw [show (((sorted.map (fun f : ObjField => f.name)).take (i + 1)).map
          List.length).sum -
        (((sorted.map (fun f : ObjField => f.name)).take i).map List.length).sum =
      (sorted.getD i dummyField).name.length by omega]
    exact hname i hi
  · unfold objViewAt
    dsimp only
    rw [hcount]
    rw [hnameOff sorted.length (le_refl sorted.length)]
    rw [hNSfull]
    exact htype i hi
  · unfold viewValue objViewAt
    dsimp only
    rw [hcount]
    rw [hnameOff sorted.length (le_refl sorted.length)]
    rw [hNSfull]
    rw [hvalOff i (le_of_lt hi), hvalOff (i + 1) hi]
    rw [readView_shift mem (voff + align_up (4 + 4 * (sorted.length + 1) +
        ((sorted.map (fun f : ObjField => f.name)).map List.length).sum +
        sorted.length) 4 + 4 * (sorted.length + 1))
      ((((sorted.map (fun f : ObjField => f.payload)).take i).map List.length).sum)
      ((((sorted.map (fun f : ObjField => f.payload)).take (i + 1)).map List.length).sum -
        (((sorted.map (fun f : ObjField => f.payload)).take i).map List.length).sum)]
    have hgd := getD_map (fun f : ObjField => f.payload) sorted i hi [] dummyField
    have hsucc := sum_take_succ (sorted.map (fun f : ObjField => f.payload)) i
      (by rw [List.length_map]; exact hi)
    rw [hgd] at hsucc
    rw [show (((sorted.map (fun f : ObjField => f.payload)).take (i + 1)).map
          List.length).sum -
        (((sorted.map (fun f : ObjField => f.payload)).take i).map List.length).sum =
      (sorted.getD i dummyField).payload.length by omega]
    exact hval i hi


/-- After a successful `insert_record` of an encoded object under `key`,
`shm_lookup_object` returns `OK` with a view that models the sorted field
list. -/
lemma lookup_object_models {s : Seg} {key : List Nat} {sorted : List ObjField} {s2 : Seg}
    (hg : Good s)
    (h : insert_record s key (encode_object sorted) SHM_TYPE_OBJECT = (ShmError.OK, s2)) :
    shm_lookup_object_seq s2 key =
      (ShmError.OK, some (objViewAt s2.payload
        ((s2.nodes s.hdr.next_free_node_index).val_off))) ∧
    ViewModels (objViewAt s2.payload ((s2.nodes s.hdr.next_free_node_index).val_off))
      sorted := by
  obtain ⟨hfind, htag, hlen, hreads⟩ := insert_node_lookup hg h
  have hvM : (encode_object sorted).length ≤ MAX_VAL_LEN := (insert_record_ok h).2.2.2.1
  constructor
  · unfold shm_lookup_object_seq shm_lookup_object_obs
    rw [hfind]
    dsimp only
    rw [if_neg (fun hne => hne htag), if_neg (fun hne => hne rfl)]
  · exact objViewAt_models sorted s2.payload _ hvM hreads

lemma get_field_fuel_zero (v : ObjectView) (name : List Nat) (lo hi : Nat) :
    get_field_fuel v name 0 lo hi = (ShmError.NOT_FOUND, none) := rfl

lemma get_field_fuel_succ (v : ObjectView) (name : List Nat) (fuel lo hi : Nat) :
    get_field_fuel v name (fuel + 1) lo hi =
      if lo < hi then
        let mid := lo + (hi - lo) / 2
        let start := v.name_offsets mid
        let nend := v.name_offsets (mid + 1)
        let nm := readView v.names_data start (nend - start)
        if nm = name then
          let vstart := v.value_offsets mid
          let vend := v.value_offsets (mid + 1)
          (ShmError.OK, some (v.field_types mid, readView v.values_data vstart
            (vend - vstart)))
        else if bytes_less nm name then get_field_fuel v name fuel (mid + 1) hi
        else get_field_fuel v name fuel lo mid
      else (ShmError.NOT_FOUND, none) := rfl

/-- In a list of fields with pairwise strictly increasing names, `find?`
at the name of a member returns that member. -/
lemma find_mem_unique : ∀ (l : List ObjField),
    List.Pairwise (fun f g => bytes_less f.name g.name = true) l →
    ∀ f : ObjField, f ∈ l → l.find? (fun g => g.name = f.name) = some f := by
  intro l
  induction l with
  | nil => intro _ f hf; simp at hf
  | cons g rest ih =>
    intro hp f hf
    obtain ⟨hg, htail⟩ := List.pairwise_cons.mp hp
    rcases List.mem_cons.mp hf with rfl | hmem
    · rw [List.find?_cons_of_pos _ (by simp)]
    · have hne : g.name ≠ f.name := by
        intro hEq
        have := hg f hmem
        rw [hEq] at this
        simp [bytes_less_irrefl] at this
      rw [List.find?_cons_of_neg _ (by simp [hne])]
      exact ih htail f hmem

/-- The binary search of `shm_object_get_field` agrees with a sequential
scan: over a view modelling a sorted field list, with enough fuel and an
interval containing every index whose name matches, it returns exactly what
`objScan` returns. -/
lemma get_field_fuel_correct (v : ObjectView) (sorted : List ObjField) (name : List Nat)
    (hm : ViewModels v sorted)
    (hsorted : List.Pairwise (fun f g => bytes_less f.name g.name = true) sorted) :
    ∀ fuel lo hi, hi ≤ sorted.length → hi - lo ≤ fuel →
      (∀ j, j < sorted.length → (sorted.getD j dummyField).name = name →
        lo ≤ j ∧ j < hi) →
      get_field_fuel v name fuel lo hi = objScan sorted name := by
  have hpw : ∀ i j, i < j → j < sorted.length →
      bytes_less (sorted.getD i dummyField).name (sorted.getD j dummyField).name = true := by
    intro i j hij hj
    have hi : i < sorted.length := lt_trans hij hj
    have hR := List.pairwise_iff_getElem.mp hsorted i j hi hj hij
    rw [getD_eq_getElem_of_lt sorted dummyField i hi,
      getD_eq_getElem_of_lt sorted dummyField j hj]
    exact hR
  have hnone : (∀ j, j < sorted.length → (sorted.getD j dummyField).name ≠ name) →
      sorted.find? (fun f => f.name = name) = none := by
    intro hno
    rw [List.find?_eq_none]
    intro x hx
    obtain ⟨j, hj, hxj⟩ := List.mem_iff_getElem.mp hx
    have := hno j hj
    rw [getD_eq_getElem_of_lt sorted dummyField j hj] at this
    simp only [List.get_eq_getElem] at this
    rw [hxj] at this
    simp [this]
  intro fuel
  induction fuel with
  | zero =>
    intro lo hi hhi hfuel hinv
    rw [get_field_fuel_zero]
    unfold objScan
    rw [hnone (fun j hj hnm => by have := hinv j hj hnm; omega)]
  | succ fuel ih =>
    intro lo hi hhi hfuel hinv
    rw [get_field_fuel_succ]
    dsimp only
    by_cases hlh : lo < hi
    · rw [if_pos hlh]
      have hmidlt : lo + (hi - lo) / 2 < hi := by omega
      have hmidlen : lo + (hi - lo) / 2 < sorted.length := by omega
      have hnm := (hm.2 (lo + (hi - lo) / 2) hmidlen).1
      unfold viewName at hnm
      rw [hnm]
      by_cases heq : (sorted.getD (lo + (hi - lo) / 2) dummyField).name = name
      · rw [if_pos heq]
        unfold objScan
        rw [find_name_unique sorted name (lo + (hi - lo) / 2) hsorted hmidlen heq]
        have hft := (hm.2 (lo + (hi - lo) / 2) hmidlen).2.1
        have hvv := (hm.2 (lo + (hi - lo) / 2) hmidlen).2.2
        unfold viewValue at hvv
        rw [hft, hvv]
      · rw [if_neg heq]
        by_cases hbl : bytes_less (sorted.getD (lo + (hi - lo) / 2) dummyField).name
            name = true
        · rw [if_pos hbl]
          refine ih (lo + (hi - lo) / 2 + 1) hi hhi (by omega) ?_
          intro j hj hnmj
          obtain ⟨hlo, hhi2⟩ := hinv j hj hnmj
          refine ⟨?_, hhi2⟩
          by_contra hjle
          have hjm : j ≤ lo + (hi - lo) / 2 := by omega
          rcases Nat.lt_or_ge j (lo + (hi - lo) / 2) with hlt | hge
          · have := hpw j (lo + (hi - lo) / 2) hlt hmidlen
            rw [hnmj] at this
            exact bytes_less_asymm this hbl
          · have hje : j = lo + (hi - lo) / 2 := by omega
            rw [hje] at hnmj
            exact heq hnmj
        · rw [if_neg hbl]
          refine ih lo (lo + (hi - lo) / 2) (by omega) (by omega) ?_
          intro j hj hnmj
          obtain ⟨hlo, hhi2⟩ := hinv j hj hnmj
          refine ⟨hlo, ?_⟩
          by_contra hjge
          have hjm : lo + (hi - lo) / 2 ≤ j := by omega
          rcases Nat.lt_or_ge (lo + (hi - lo) / 2) j with hlt | hge
          · have := hpw (lo + (hi - lo) / 2) j hlt hj
            rw [hnmj] at this
            exact hbl this
          · have hje : j = lo + (hi - lo) / 2 := by omega
            rw [hje] at hnmj
            exact heq hnmj
    · rw [if_neg hlh]
      unfold objScan
      rw [hnone (fun j hj hnm => by have := hinv j hj hnm; omega)]


/-
Claim C8 (sorted object fields and binary-search field access).
-/

/-- Claim C8: for every object successfully stored by `shm_insert_object`
with pairwise-distinct field names on a reachable segment, the stored field
list is the input sorted strictly increasing bytewise by name; looking the
key up yields an object view on which `shm_object_get_field` agrees with a
sequential scan of the sorted fields for every queried name: it returns
`OK` with the field's type tag and exact payload bytes for every inserted
field name, and `NOT_FOUND` for every name not among the fields. -/
theorem c8_object_get_field_spec
    (nB nN cap : Nat) (ops : List Op) (s : Seg) (key : List Nat) (fields : List ObjField)
    (h1 : 0 < nB) (h2 : nB < 2 ^ 32) (h3 : nN < 2 ^ 32) (h4 : cap < 2 ^ 32)
    (hs : s = (runH (initSeg nB nN cap) ops).1)
    (hdist : List.Pairwise (fun f g => f.name ≠ g.name) fields)
    (hOK : (shm_insert_object s key fields).1 = ShmError.OK) :
    List.Pairwise (fun f g => bytes_less f.name g.name = true)
      (sortBy (fun a b => ! bytes_less b.name a.name) fields) ∧
    ∃ view, shm_lookup_object_seq (shm_insert_object s key fields).2 key =
        (ShmError.OK, some view) ∧
      (∀ name, shm_object_get_field view name =
        objScan (sortBy (fun a b => ! bytes_less b.name a.name) fields) name) ∧
      (∀ f ∈ fields, shm_object_get_field view f.name =
        (ShmError.OK, some (f.ftype, f.payload))) ∧
      (∀ name, (∀ f ∈ fields, f.name ≠ name) →
        shm_object_get_field view name = (ShmError.NOT_FOUND, none)) := by
  have hg : Good s := hs ▸ (good_runH nB nN cap ops h1 h2 h3 h4).1
  have hsorted := sorted_fields_pairwise fields hdist
  refine ⟨hsorted, ?_⟩
  rcases h : shm_insert_object s key fields with ⟨e, s2⟩
  rw [h] at hOK
  dsimp only at hOK
  subst hOK
  have hdist2 : List.Pairwise (fun f g : ObjField => f.name ≠ g.name)
      (sortBy (fun a b => ! bytes_less b.name a.name) fields) :=
    hsorted.imp (fun {a b} hab hEq => by
      rw [hEq] at hab
      simp [bytes_less_irrefl] at hab)
  have hadj : adjacent_dup (sortBy (fun a b => ! bytes_less b.name a.name) fields) =
      false := adjacent_dup_eq_false hdist2
  unfold shm_insert_object at h
  dsimp only at h
  rw [if_neg (by rw [hadj]; exact Bool.false_ne_true)] at h
  obtain ⟨hlk, hmodels⟩ := lookup_object_models hg h
  have hall : ∀ name, shm_object_get_field
      (objViewAt s2.payload ((s2.nodes s.hdr.next_free_node_index).val_off)) name =
      objScan (sortBy (fun a b => ! bytes_less b.name a.name) fields) name := by
    intro name
    unfold shm_object_get_field
    rw [hmodels.1]
    exact get_field_fuel_correct _ _ name hmodels hsorted
      (sortBy (fun a b => ! bytes_less b.name a.name) fields).length 0
      (sortBy (fun a b => ! bytes_less b.name a.name) fields).length
      (le_refl _) (by omega) (fun j hj _ => ⟨Nat.zero_le j, hj⟩)
  refine ⟨_, hlk, hall, ?_, ?_⟩
  · intro f hf
    rw [hall f.name]
    unfold objScan
    rw [find_mem_unique _ hsorted f
      ((perm_sortBy (fun a b => ! bytes_less b.name a.name) fields).mem_iff.mpr hf)]
  · intro name hnone
    rw [hall name]
    unfold objScan
    rw [List.find?_eq_none.mpr (fun x hx => by
      simp only [decide_eq_true_eq]
      exact hnone x ((perm_sortBy (fun a b => ! bytes_less b.name a.name)
        fields).mem_iff.mp hx))]

/-- Witness for `c8_object_get_field_spec`: the two-field object
`{"B" ↦ (tag 2, [9]), "A" ↦ (tag 1, [7, 8])}` inserted under key `[1]` on a
fresh segment. -/
theorem c8_witness :
    List.Pairwise (fun f g => bytes_less f.name g.name = true)
      (sortBy (fun a b => ! bytes_less b.name a.name)
        [(⟨[66], 2, [9]⟩ : ObjField), ⟨[65], 1, [7, 8]⟩]) ∧
    ∃ view, shm_lookup_object_seq
        (shm_insert_object (runH (initSeg 4 4 256) []).1 [1]
          [(⟨[66], 2, [9]⟩ : ObjField), ⟨[65], 1, [7, 8]⟩]).2 [1] =
        (ShmError.OK, some view) ∧
      (∀ name, shm_object_get_field view name =
        objScan (sortBy (fun a b => ! bytes_less b.name a.name)
          [(⟨[66], 2, [9]⟩ : ObjField), ⟨[65], 1, [7, 8]⟩]) name) ∧
      (∀ f ∈ [(⟨[66], 2, [9]⟩ : ObjField), ⟨[65], 1, [7, 8]⟩],
        shm_object_get_field view f.name = (ShmError.OK, some (f.ftype, f.payload))) ∧
      (∀ name, (∀ f ∈ [(⟨[66], 2, [9]⟩ : ObjField), ⟨[65], 1, [7, 8]⟩], f.name ≠ name) →
        shm_object_get_field view name = (ShmError.NOT_FOUND, none)) :=
  c8_object_get_field_spec 4 4 256 [] _ [1] [⟨[66], 2, [9]⟩, ⟨[65], 1, [7, 8]⟩]
    (by decide) (by decide) (by decide) (by decide) rfl (by decide) (by decide)


end ShmKV
